import Mathlib

/-!
Verification of the sqlite3 schema manager (src/sqlite3-schema-manager.js).

The JavaScript source is shallowly embedded: pure string-building helpers
become Lean functions on String / List Char, the loosely typed table
declaration becomes a structure with explicit optional fields, JavaScript
objects used as key-indexed maps become association lists in insertion
order (assignment to an existing key keeps its position, as in JS), and
the asynchronous select/execute collaborators become a state monad that
records the list of successfully executed statements and can fail after a
given number of collaborator calls.
-/

set_option autoImplicit false

namespace S3SM

/-- The single quote character, written via its code point so that no
quote character appears in the Lean source outside of strings. -/
def qc : Char := Char.ofNat 39

/-- The single quote character as a one-character string. -/
def sq : String := String.mk [qc]

/-- Does `pat` match at the head of the second list? -/
def patMatches : List Char → List Char → Bool
  | [], _ => true
  | _ :: _, [] => false
  | p :: ps, c :: cs => p == c && patMatches ps cs

/-- Replace the first occurrence of `pat` by `rep`, as the JavaScript
method `String.replace` does when called with a plain string pattern:
only the first occurrence is replaced. -/
def replaceFirstChars (pat rep : List Char) : List Char → List Char
  | [] => []
  | c :: cs =>
    if patMatches pat (c :: cs) then rep ++ (c :: cs).drop pat.length
    else c :: replaceFirstChars pat rep cs

/-- `quote(s)` from the source: null becomes the literal NULL, any other
value is wrapped in single quotes after the FIRST embedded quote has been
doubled (the source calls `replace` with a string pattern, which only
rewrites the first occurrence). -/
def quote (s : Option String) : String :=
  match s with
  | none => "NULL"
  | some str => sq ++ String.mk (replaceFirstChars [qc] [qc, qc] str.toList) ++ sq

/-- `unquote(s)` from the source: null maps to null, the empty string to
the empty string; otherwise the text must begin and end with a single
quote (else the function throws), the delimiters are stripped and the
FIRST doubled quote is collapsed back to one. -/
def unquote (s : Option String) : Except String (Option String) :=
  match s with
  | none => Except.ok none
  | some str =>
    if str = "" then Except.ok (some "")
    else if str.length < 2 ∨ str.toList.head? ≠ some qc ∨ str.toList.getLast? ≠ some qc then
      Except.error ("Invalid quoted string: " ++ str)
    else if str.length = 2 then Except.ok (some "")
    else Except.ok (some (String.mk (replaceFirstChars [qc, qc] [qc] ((str.toList.drop 1).dropLast))))

/-- `parseDefaultValue(s)` from the source: null or the case-insensitive
literal null gives null, anything else is unquoted. -/
def parseDefaultValue (s : Option String) : Except String (Option String) :=
  match s with
  | none => Except.ok none
  | some str => if str.toLower = "null" then Except.ok none else unquote (some str)

/-- A declared or introspected column: name, dialect type string, NOT
NULL flag, and default value (`none` meaning SQL NULL). -/
structure ColumnDefinition where
  name : String
  type : String
  notnull : Bool
  dflt_value : Option String
deriving DecidableEq, Repr

/-- A declared or introspected index: name, origin (the strings c, u or
pk) and ordered column list. -/
structure IndexDefinition where
  name : String
  origin : String
  columns : List String
deriving DecidableEq, Repr

/-- One from/to reference pair of a foreign key. -/
structure FKRef where
  fromCol : String
  toCol : String
deriving DecidableEq, Repr

/-- A foreign key: target table, ordered reference pairs, and the two
optional actions (absent means NO ACTION via `getFKAction`). -/
structure ForeignKeyDefinition where
  table : String
  references : List FKRef
  on_update : Option String
  on_delete : Option String
deriving DecidableEq, Repr

/-- A seed entry for insert_if_not_exists and update_if_exists, with the
two column-to-value maps in JavaScript key insertion order.  A value of
`none` is the JavaScript null. -/
structure SeedEntry where
  identifiers : List (String × Option String)
  other_values : List (String × Option String)
deriving DecidableEq, Repr

/-- A normalized table declaration.  The `getArray`/`getObject` helpers
of the source supply empty defaults for absent optional fields; here the
fields are always present, defaulted to empty lists. -/
structure TableDefinition where
  name : String
  columns : List ColumnDefinition
  indexes : List IndexDefinition
  foreign_keys : List ForeignKeyDefinition
  insert_on_create : List (List (String × Option String))
  insert_if_not_exists : List SeedEntry
  update_if_exists : List SeedEntry
  delete_if_exists : List (List (String × Option String))
deriving DecidableEq, Repr

/-- `getFKAction`: an absent action defaults to NO ACTION. -/
def getFKAction (a : Option String) : String := a.getD "NO ACTION"

/-- `doIndexesMatch` from the source: equal origin, equal length and
pointwise equal column lists. -/
def doIndexesMatch (i1 i2 : IndexDefinition) : Bool :=
  if i1.origin ≠ i2.origin then false
  else if i1.columns.length ≠ i2.columns.length then false
  else (i1.columns.zip i2.columns).all (fun p => p.1 == p.2)

/-- `doForeignKeysMatch` from the source: equal target table, equal
actions after defaulting, and pointwise equal reference pairs. -/
def doForeignKeysMatch (f1 f2 : ForeignKeyDefinition) : Bool :=
  if f1.table ≠ f2.table ∨ getFKAction f1.on_update ≠ getFKAction f2.on_update ∨
      getFKAction f1.on_delete ≠ getFKAction f2.on_delete then false
  else if f1.references.length ≠ f2.references.length then false
  else (f1.references.zip f2.references).all (fun p => p.1.fromCol == p.2.fromCol && p.1.toCol == p.2.toCol)

/-- `columnDefinitionToSQL` from the source. -/
def columnDefinitionToSQL (coldef : ColumnDefinition) : String :=
  coldef.name ++ " " ++ coldef.type ++ (if coldef.notnull then " NOT NULL" else " NULL")
    ++ " DEFAULT "
    ++ (match coldef.dflt_value with
        | none => "NULL"
        | some v => quote (some v))

/-- `indexDefinitionToSQL` from the source.  Note the doubled space in
the non-unique case, reproduced from the string concatenation there. -/
def indexDefinitionToSQL (idxdef : IndexDefinition) (tableName : String) : String :=
  if idxdef.origin = "c" ∨ idxdef.origin = "u" then
    "create " ++ (if idxdef.origin = "u" then "unique " else "") ++ " index " ++ idxdef.name
      ++ " on " ++ tableName ++ " (" ++ String.intercalate ", " idxdef.columns ++ ")"
  else ""

/-- `foreignKeyDefinitionToSQL` from the source. -/
def foreignKeyDefinitionToSQL (fkdef : ForeignKeyDefinition) : String :=
  "foreign key (" ++ String.intercalate ", " (fkdef.references.map (fun r => r.fromCol))
    ++ ") references " ++ fkdef.table
    ++ "(" ++ String.intercalate ", " (fkdef.references.map (fun r => r.toCol)) ++ ")"
    ++ " on update " ++ getFKAction fkdef.on_update
    ++ " on delete " ++ getFKAction fkdef.on_delete

/-- The scan over the declared indexes that `getCreateTableSQL` performs
first: `pk` is the last pk-origin entry, and `singlePKColumn` is the
single column of the last single-column pk-origin entry seen. -/
def createTablePKScan (indexes : List IndexDefinition) :
    Option IndexDefinition × Option String :=
  indexes.foldl
    (fun acc idxdef =>
      if idxdef.origin = "pk" then
        (some idxdef, if idxdef.columns.length = 1 then idxdef.columns.head? else acc.2)
      else acc)
    (none, none)

/-- One column clause step of `getCreateTableSQL`: the accumulator is
(sql so far, separator, pending primary key clause). -/
def createTableColStep (singlePK : Option String)
    (acc : String × String × Option IndexDefinition) (coldef : ColumnDefinition) :
    String × String × Option IndexDefinition :=
  if singlePK = some coldef.name ∧ coldef.type = "INTEGER" then
    (acc.1 ++ acc.2.1 ++ " " ++ coldef.name ++ " INTEGER PRIMARY KEY", ",\n", none)
  else
    (acc.1 ++ acc.2.1 ++ " " ++ columnDefinitionToSQL coldef, ",\n", acc.2.2)

/-- One foreign key clause step of `getCreateTableSQL`. -/
def createTableFKStep (acc : String × String) (fkdef : ForeignKeyDefinition) :
    String × String :=
  (acc.1 ++ acc.2 ++ " " ++ foreignKeyDefinitionToSQL fkdef, ",\n")

/-- `getCreateTableSQL` from the source.  A column that is the single
INTEGER-typed primary key column is rendered as INTEGER PRIMARY KEY and
suppresses the explicit primary key clause (the source sets `pk = null`). -/
def getCreateTableSQL (tbldef : TableDefinition) (tableName : String) : String :=
  let scan := createTablePKScan tbldef.indexes
  let step1 := tbldef.columns.foldl (createTableColStep scan.2)
    ("create table " ++ tableName ++ " (", "", scan.1)
  let step2 :=
    match step1.2.2 with
    | some pk =>
      (step1.1 ++ step1.2.1 ++ " primary key (" ++ String.intercalate ", " pk.columns ++ ")",
       (",\n" : String))
    | none => (step1.1, step1.2.1)
  let step3 := tbldef.foreign_keys.foldl createTableFKStep step2
  step3.1 ++ "\n)"

/-- `getCreateIndexSQLs` from the source: one CREATE INDEX statement per
c- or u-origin declared index, skipping empty renderings. -/
def getCreateIndexSQLs (tbldef : TableDefinition) (tableName : String) : List String :=
  tbldef.indexes.filterMap
    (fun idxdef =>
      if idxdef.origin = "c" ∨ idxdef.origin = "u" then
        let isql := indexDefinitionToSQL idxdef tableName
        if isql ≠ "" then some isql else none
      else none)

/-! ### Association lists in JavaScript object semantics

A JavaScript object with non-numeric string keys iterates its keys in
insertion order, and assigning to an existing key keeps its position.
-/

/-- First value stored under key `k`. -/
def assocLookup {κ : Type} {α : Type} [DecidableEq κ] (l : List (κ × α)) (k : κ) : Option α :=
  match l with
  | [] => none
  | p :: rest => if p.1 = k then some p.2 else assocLookup rest k

/-- Is the key present? (the JavaScript `in` operator). -/
def keyMem {κ : Type} {α : Type} [DecidableEq κ] (l : List (κ × α)) (k : κ) : Bool :=
  (assocLookup l k).isSome

/-- JavaScript assignment `obj[k] = v`: overwrite in place, else append. -/
def assocSet {κ : Type} {α : Type} [DecidableEq κ] (l : List (κ × α)) (k : κ) (v : α) :
    List (κ × α) :=
  match l with
  | [] => [(k, v)]
  | p :: rest => if p.1 = k then (k, v) :: rest else p :: assocSet rest k v

/-- Apply `f` to the value stored under `k`, leaving other entries alone. -/
def assocUpdate {κ : Type} {α : Type} [DecidableEq κ] (l : List (κ × α)) (k : κ) (f : α → α) :
    List (κ × α) :=
  match l with
  | [] => []
  | p :: rest => if p.1 = k then (p.1, f p.2) :: rest else p :: assocUpdate rest k f

/-! ### Introspection rows

Shapes of the rows the sqlite pragmas return, as the source reads them.
-/

/-- A row of `pragma table_info`: name, type, notnull as a number, the
default value as quoted literal text (or null), and the 1-based primary
key ordinal (0 meaning not part of the primary key). -/
structure TableInfoRow where
  name : String
  type : String
  notnull : Int
  dflt_value : Option String
  pk : Nat
deriving DecidableEq, Repr

/-- A row of `pragma index_list`: name, origin, and the optional unique
flag (the source guards the access with the `in` operator). -/
structure IndexListRow where
  name : String
  origin : String
  unique : Option Int
deriving DecidableEq, Repr

/-- A row of `pragma foreign_key_list`: rows sharing an id describe one
multi-column foreign key. -/
structure FKRow where
  id : Int
  table : String
  fromCol : String
  toCol : String
  on_update : String
  on_delete : String
deriving DecidableEq, Repr

/-- The static per-table introspection data the select collaborator
serves.  The engine queries each pragma at most once per reconciliation
(index_info once per discovered index), so a fixed snapshot is faithful. -/
structure DB where
  foreign_keys_rows : List Int
  table_info : List TableInfoRow
  index_list : List IndexListRow
  index_info : String → List String
  foreign_key_list : List FKRow

/-! ### The differencer (pure part of updateExistingTable) -/

/-- Parse one table_info row into a column definition, as the first loop
of `updateExistingTable` does; `parseDefaultValue` may throw. -/
def parseOldColdef (r : TableInfoRow) : Except String ColumnDefinition := do
  let d ← parseDefaultValue r.dflt_value
  Except.ok ⟨r.name, r.type, r.notnull ≠ 0, d⟩

/-- `old_coldefs_by_name`: the live columns indexed by name. -/
def buildOldColdefsByName (rows : List TableInfoRow) :
    Except String (List (String × ColumnDefinition)) :=
  rows.foldlM (fun acc r => do
    let c ← parseOldColdef r
    Except.ok (assocSet acc r.name c)) []

/-- Stable insertion into a list sorted by the second component; equal
keys keep their original relative order, matching the stable JavaScript
`Array.sort` with a comparator returning 0 on equal ordinals. -/
def insertByOrdinal (acc : List (String × Nat)) (x : String × Nat) : List (String × Nat) :=
  match acc with
  | [] => [x]
  | y :: ys => if y.2 ≤ x.2 then y :: insertByOrdinal ys x else x :: y :: ys

/-- The pk>0 rows of table_info as (name, pk-1) pairs, in row order. -/
def pkOrdinalPairs (rows : List TableInfoRow) : List (String × Nat) :=
  rows.filterMap (fun r => if 0 < r.pk then some (r.name, r.pk - 1) else none)

/-- `old_pk_cols_from_table_info`: the names of the pk>0 columns, stably
sorted by their 1-based pk ordinal. -/
def oldPKColsFromTableInfo (rows : List TableInfoRow) : List String :=
  ((pkOrdinalPairs rows).foldl insertByOrdinal []).map (fun p => p.1)

/-- `new_coldefs_by_name`: the declared columns indexed by name. -/
def newColdefsByName (cols : List ColumnDefinition) : List (String × ColumnDefinition) :=
  cols.foldl (fun acc c => assocSet acc c.name c) []

/-- The first differencer loop: one `drop column` clause per live column
missing from the declaration, in live key order. -/
def dropColSQLs (oldBy newBy : List (String × ColumnDefinition)) : List String :=
  oldBy.filterMap (fun p => if keyMem newBy p.1 then none else some ("drop column " ++ p.1))

/-- Index the declared indexes by name (c and u origins) and extract the
declared primary key (the last pk-origin entry). -/
def newIdxByName (indexes : List IndexDefinition) :
    List (String × IndexDefinition) × Option IndexDefinition :=
  indexes.foldl
    (fun acc idxdef =>
      if idxdef.origin = "c" ∨ idxdef.origin = "u" then
        (assocSet acc.1 idxdef.name idxdef, acc.2)
      else if idxdef.origin = "pk" then (acc.1, some idxdef)
      else acc)
    ([], none)

/-- `is_pk_col`: does the declared primary key contain this column? -/
def isPKCol (new_pk : Option IndexDefinition) (k : String) : Bool :=
  match new_pk with
  | some pk => pk.columns.contains k
  | none => false

/-- `is_pk_auto_int_col`: the column is the single column of a
single-column INTEGER-typed declared primary key. -/
def isPKAutoIntCol (new_pk : Option IndexDefinition) (k : String) (nc : ColumnDefinition) : Bool :=
  isPKCol new_pk k && nc.type == "INTEGER" &&
    (match new_pk with
     | some pk => pk.columns.length == 1
     | none => false)

/-- The per-column rewrite trigger of the common-column loop: a type
mismatch, a notnull mismatch outside the declared primary key, or a
default mismatch outside the single INTEGER primary key column. -/
def commonColNeedsRW (new_pk : Option IndexDefinition) (k : String)
    (oldc newc : ColumnDefinition) : Bool :=
  (oldc.type != newc.type) ||
  (!isPKCol new_pk k && oldc.notnull != newc.notnull) ||
  (!isPKAutoIntCol new_pk k newc && oldc.dflt_value != newc.dflt_value)

/-- One step of the common-column loop of `updateExistingTable`,
threading the triple (common column names, add column clauses,
needsRewrite) over one declared column. -/
def commonColumnStep (oldBy : List (String × ColumnDefinition))
    (new_pk : Option IndexDefinition) (acc : List String × List String × Bool)
    (p : String × ColumnDefinition) : List String × List String × Bool :=
  match assocLookup oldBy p.1 with
  | some oldc =>
    (acc.1 ++ [p.1], acc.2.1, acc.2.2 || commonColNeedsRW new_pk p.1 oldc p.2)
  | none =>
    (acc.1, acc.2.1 ++ ["add column " ++ columnDefinitionToSQL p.2], acc.2.2)

/-- The common-column loop of `updateExistingTable`, iterating the
declared columns in key order. -/
def commonColumnScan (newBy oldBy : List (String × ColumnDefinition))
    (new_pk : Option IndexDefinition) : List String × List String × Bool :=
  newBy.foldl (commonColumnStep oldBy new_pk) ([], [], false)

/-- The common column triples (name, live column, declared column), in
declared key order: the pairs the common-column loop compares. -/
def commonPairs (newBy oldBy : List (String × ColumnDefinition)) :
    List (String × ColumnDefinition × ColumnDefinition) :=
  newBy.filterMap (fun p => (assocLookup oldBy p.1).map (fun oc => (p.1, oc, p.2)))

/-- The add-column clauses the common-column loop produces: one per
declared column missing from the live table, in declared key order. -/
def addColSQLs (newBy oldBy : List (String × ColumnDefinition)) : List String :=
  newBy.filterMap
    (fun p => if keyMem oldBy p.1 then none
              else some ("add column " ++ columnDefinitionToSQL p.2))

/-- One step of indexing the live indexes by name: a c origin with a
nonzero unique flag is refined to u, and a pk-origin row replaces the
live primary key slot. -/
def oldIdxStep (acc : List (String × IndexDefinition) × Option IndexDefinition)
    (r : IndexListRow) : List (String × IndexDefinition) × Option IndexDefinition :=
  if r.origin = "c" ∨ r.origin = "u" then
    let origin := if r.origin = "c" ∧ r.unique.getD 0 ≠ 0 then "u" else r.origin
    (assocSet acc.1 r.name ⟨r.name, origin, []⟩, acc.2)
  else if r.origin = "pk" then (acc.1, some ⟨r.name, r.origin, []⟩)
  else acc

/-- Index the live indexes by name from the index_list rows and extract
the last pk-origin row; the column lists are filled in afterwards. -/
def buildOldIdxByName (rows : List IndexListRow) :
    List (String × IndexDefinition) × Option IndexDefinition :=
  rows.foldl oldIdxStep ([], none)

/-- Fill the column list of one live index from `pragma index_info`
output (`queryIndexColumns` in the source, value part). -/
def fillIdxColumns (info : String → List String) (l : List (String × IndexDefinition)) :
    List (String × IndexDefinition) :=
  l.map (fun p => (p.1, ⟨p.2.name, p.2.origin, info p.2.name⟩))

/-- Fill the column list of the live primary key, when one was listed. -/
def fillPK (info : String → List String) (opk : Option IndexDefinition) :
    Option IndexDefinition :=
  opk.map (fun i => ⟨i.name, i.origin, info i.name⟩)

/-- The primary key fallback: when the index listing had no pk-origin
entry but table_info reported pk ordinals, reconstruct the primary key
from those ordinals. -/
def applyPKFallback (old_pk : Option IndexDefinition) (fallbackCols : List String) :
    Option IndexDefinition :=
  match old_pk with
  | none => if fallbackCols ≠ [] then some ⟨"", "pk", fallbackCols⟩ else none
  | some pk => some pk

/-- The complete live primary key computation: fill the listed pk from
index_info, then apply the table_info fallback. -/
def livePKOf (info : String → List String) (tinfo : List TableInfoRow)
    (ilist : List IndexListRow) : Option IndexDefinition :=
  applyPKFallback (fillPK info (buildOldIdxByName ilist).2) (oldPKColsFromTableInfo tinfo)

/-- The primary key comparison: presence mismatch, or both present and
`doIndexesMatch` failing. -/
def pkMismatchB (old_pk new_pk : Option IndexDefinition) : Bool :=
  match old_pk, new_pk with
  | none, none => false
  | some _, none => true
  | none, some _ => true
  | some o, some n => !doIndexesMatch o n

/-- Group the foreign_key_list rows by id, appending reference pairs of
repeated ids to the foreign key created at the first occurrence. -/
def buildOldFKs (rows : List FKRow) : List ForeignKeyDefinition :=
  (rows.foldl
    (fun acc r =>
      if keyMem acc r.id then
        assocUpdate acc r.id
          (fun fk => ⟨fk.table, fk.references ++ [⟨r.fromCol, r.toCol⟩], fk.on_update, fk.on_delete⟩)
      else acc ++ [(r.id, ⟨r.table, [⟨r.fromCol, r.toCol⟩], some r.on_update, some r.on_delete⟩)])
    []).map (fun p => p.2)

/-- The foreign key comparison: a count mismatch, or some live foreign
key matching no declared one. -/
def fkMismatchB (old_fks new_fks : List ForeignKeyDefinition) : Bool :=
  if old_fks.length ≠ new_fks.length then true
  else old_fks.any (fun ofk => !(new_fks.any (fun nfk => doForeignKeysMatch ofk nfk)))

/-- The complete needsRewrite computation, in the order of the source:
the common-column scan may set it, then the primary key comparison, then
the foreign key comparison (each later step only runs when the flag is
still false, which amounts to a disjunction). -/
def tableNeedsRewrite (newBy oldBy : List (String × ColumnDefinition))
    (new_pk old_pk : Option IndexDefinition)
    (old_fks new_fks : List ForeignKeyDefinition) : Bool :=
  let rw1 := (commonColumnScan newBy oldBy new_pk).2.2
  let rw2 := if rw1 then true else pkMismatchB old_pk new_pk
  if rw2 then true else fkMismatchB old_fks new_fks

/-- Index drops of the incremental path: live indexes missing from the
declaration, then declared indexes present live but not matching. -/
def computeDropIdxSQLs (oldIdx newIdx : List (String × IndexDefinition)) : List String :=
  oldIdx.filterMap (fun p => if keyMem newIdx p.1 then none else some ("drop index " ++ p.1))
  ++ newIdx.filterMap (fun p =>
      match assocLookup oldIdx p.1 with
      | some oi => if doIndexesMatch oi p.2 then none else some ("drop index " ++ p.1)
      | none => none)

/-- Index creations of the incremental path: declared indexes that are
missing live or present but not matching. -/
def computeCreateIdxSQLs (tableName : String)
    (oldIdx newIdx : List (String × IndexDefinition)) : List String :=
  newIdx.filterMap (fun p =>
    match assocLookup oldIdx p.1 with
    | some oi =>
      if doIndexesMatch oi p.2 then none
      else
        let isql := indexDefinitionToSQL p.2 tableName
        if isql ≠ "" then some isql else none
    | none =>
      let isql := indexDefinitionToSQL p.2 tableName
      if isql ≠ "" then some isql else none)

/-- The rewrite path statement list, in source order: CREATE TABLE under
the temporary name, copy of the common columns, DROP of the original,
RENAME, then the CREATE INDEX statements for the temporary name.  The
temporary name appends the wall clock value (`now`) to the table name. -/
def rewriteSQLs (tbldef : TableDefinition) (now : Nat) (common : List String) : List String :=
  let tmptn := tbldef.name ++ "_new_" ++ toString now
  [getCreateTableSQL tbldef tmptn,
   "insert into " ++ tmptn ++ " (" ++ String.intercalate "," common ++ ")"
     ++ " select " ++ String.intercalate "," common ++ " from " ++ tbldef.name,
   "drop table " ++ tbldef.name,
   "alter table " ++ tmptn ++ " rename to " ++ tbldef.name]
  ++ getCreateIndexSQLs tbldef tmptn

/-! ### Seed statement generation -/

/-- The column/value pairs of one insert_if_not_exists statement: the
identifier entries first, then the other_values entries whose key is not
already an identifier (the source skips those with `continue`). -/
def iineColVals (e : SeedEntry) : List (String × String) :=
  e.identifiers.map (fun p => (p.1, quote p.2))
  ++ (e.other_values.filter (fun p => !(keyMem e.identifiers p.1))).map
      (fun p => (p.1, quote p.2))

/-- One insert_if_not_exists statement; an entry with no identifiers is
skipped entirely (the source returns before pushing). -/
def insertIfNotExistsSQL (tname : String) (e : SeedEntry) : Option String :=
  if e.identifiers = [] then none
  else
    some ("insert into " ++ tname ++ " ("
      ++ String.intercalate ", " ((iineColVals e).map (fun p => p.1))
      ++ ") select " ++ String.intercalate ", " ((iineColVals e).map (fun p => p.2))
      ++ " where not exists (select 1 from " ++ tname ++ " where "
      ++ String.intercalate " and " (e.identifiers.map (fun p => p.1 ++ " = " ++ quote p.2))
      ++ ")")

/-- All insert_if_not_exists statements of a declaration. -/
def insertIfNotExistsSQLs (tbldef : TableDefinition) : List String :=
  tbldef.insert_if_not_exists.filterMap (insertIfNotExistsSQL tbldef.name)

/-- One update_if_exists statement; skipped when either map is empty. -/
def updateIfExistsSQL (tname : String) (e : SeedEntry) : Option String :=
  if e.other_values = [] then none
  else if e.identifiers = [] then none
  else
    some ("update " ++ tname ++ " set "
      ++ String.intercalate ", " (e.other_values.map (fun p => p.1 ++ " = " ++ quote p.2))
      ++ " where "
      ++ String.intercalate " and " (e.identifiers.map (fun p => p.1 ++ " = " ++ quote p.2)))

/-- All update_if_exists statements of a declaration. -/
def updateIfExistsSQLs (tbldef : TableDefinition) : List String :=
  tbldef.update_if_exists.filterMap (updateIfExistsSQL tbldef.name)

/-- One delete_if_exists statement; skipped when the map is empty. -/
def deleteIfExistsSQL (tname : String) (m : List (String × Option String)) : Option String :=
  if m = [] then none
  else
    some ("delete from " ++ tname ++ " where "
      ++ String.intercalate " and " (m.map (fun p => p.1 ++ " = " ++ quote p.2)))

/-- All delete_if_exists statements of a declaration. -/
def deleteIfExistsSQLs (tbldef : TableDefinition) : List String :=
  tbldef.delete_if_exists.filterMap (deleteIfExistsSQL tbldef.name)

/-- All insert_on_create statements of a declaration (one INSERT per
entry, pushed unconditionally). -/
def insertOnCreateSQLs (tbldef : TableDefinition) : List String :=
  tbldef.insert_on_create.map (fun ioc =>
    "insert into " ++ tbldef.name ++ " ("
      ++ String.intercalate ", " (ioc.map (fun p => p.1))
      ++ ") values ("
      ++ String.intercalate ", " (ioc.map (fun p => quote p.2)) ++ ")")

/-! ### The execution monad

Every collaborator interaction (select or execute) is an asynchronous
call that can fail.  The state carries the optional remaining number of
collaborator calls before the next failure (`none` meaning no failure
ever occurs) and the list of statements executed so far, in order.  A
failed call aborts the run, carrying the state at the failure.
-/

/-- Collaborator state: remaining successful calls, and the trace of the
statements handed to the execute collaborator so far. -/
structure EngSt where
  fuel : Option Nat
  trace : List String
deriving DecidableEq, Repr

/-- Errors: a collaborator failure, or a JavaScript throw (the source
throws on malformed quoted literals). -/
inductive EngErr where
  | collab : EngErr
  | thrown : String → EngErr
deriving DecidableEq, Repr

/-- The engine monad: state passing with abort. -/
def EngM (α : Type) : Type := EngSt → Except (EngSt × EngErr) (EngSt × α)

instance : Monad EngM where
  pure a := fun s => Except.ok (s, a)
  bind m f := fun s =>
    match m s with
    | Except.error e => Except.error e
    | Except.ok (s1, a) => f a s1

/-- One select call: consumes a unit of collaborator fuel and returns
the given static pragma result. -/
def selectRows {α : Type} (rows : List α) : EngM (List α) := fun s =>
  match s.fuel with
  | none => Except.ok (s, rows)
  | some 0 => Except.error (s, EngErr.collab)
  | some (n + 1) => Except.ok (⟨some n, s.trace⟩, rows)

/-- One execute call: consumes a unit of collaborator fuel and appends
the statement to the trace. -/
def execute (sql : String) : EngM Unit := fun s =>
  match s.fuel with
  | none => Except.ok (⟨none, s.trace ++ [sql]⟩, ())
  | some 0 => Except.error (s, EngErr.collab)
  | some (n + 1) => Except.ok (⟨some n, s.trace ++ [sql]⟩, ())

/-- Surface a JavaScript throw into the monad. -/
def liftExcept {α : Type} : Except String α → EngM α
  | Except.ok a => pure a
  | Except.error e => fun s => Except.error (s, EngErr.thrown e)

/-- `executeSQLCommands` from the source.  Its loop reads
`for (var cmdi = 0; cmdi < cmdlist.length; cmdi++)` with
`var sql = cmdlist[cmdi++]` in the body, so the index advances twice per
iteration and only the commands at even indexes are executed. -/
def executeSQLCommands : List String → EngM Unit
  | [] => pure ()
  | [c] => execute c
  | c :: _ :: rest => do
    execute c
    executeSQLCommands rest

/-- The even-indexed sublist: exactly the commands the buggy
`executeSQLCommands` hands to the execute collaborator. -/
def issuedOf : List String → List String
  | [] => []
  | [c] => [c]
  | c :: _ :: rest => c :: issuedOf rest

/-- `queryIndexColumns` on each live index in key order, each issuing
one `pragma index_info` select. -/
def fillIndexColumnsM (db : DB) : List (String × IndexDefinition) →
    EngM (List (String × IndexDefinition))
  | [] => pure []
  | p :: rest => do
    let rows ← selectRows (db.index_info p.2.name)
    let rest1 ← fillIndexColumnsM db rest
    pure ((p.1, ⟨p.2.name, p.2.origin, rows⟩) :: rest1)

/-- `queryIndexColumns` on the listed primary key, when there is one. -/
def fillPKColumnsM (db : DB) : Option IndexDefinition → EngM (Option IndexDefinition)
  | none => pure none
  | some i => do
    let rows ← selectRows (db.index_info i.name)
    pure (some ⟨i.name, i.origin, rows⟩)

/-- `handleDataTransformations` from the source: the three conditional
seed statement lists, each run through `executeSQLCommands`. -/
def handleDataTransformations (tbldef : TableDefinition) : EngM Unit := do
  executeSQLCommands (insertIfNotExistsSQLs tbldef)
  executeSQLCommands (updateIfExistsSQLs tbldef)
  executeSQLCommands (deleteIfExistsSQLs tbldef)

/-- `createMissingTable` from the source: CREATE TABLE, the CREATE INDEX
list, the insert_on_create list, then the conditional seeds. -/
def createMissingTable (tbldef : TableDefinition) : EngM Unit := do
  executeSQLCommands [getCreateTableSQL tbldef tbldef.name]
  executeSQLCommands (getCreateIndexSQLs tbldef tbldef.name)
  executeSQLCommands (insertOnCreateSQLs tbldef)
  handleDataTransformations tbldef

/-- `updateExistingTable` from the source, over the table_info rows that
the caller already fetched.  The pure differencer parts are the named
functions above; the selects appear in source order. -/
def updateExistingTable (db : DB) (tbldef : TableDefinition) (now : Nat)
    (old_coldefs : List TableInfoRow) : EngM Unit := do
  let old_coldefs_by_name ← liftExcept (buildOldColdefsByName old_coldefs)
  let old_pk_cols := oldPKColsFromTableInfo old_coldefs
  let new_coldefs_by_name := newColdefsByName tbldef.columns
  let newIdx := newIdxByName tbldef.indexes
  let scan := commonColumnScan new_coldefs_by_name old_coldefs_by_name newIdx.2
  let drop_add_col_sqls := dropColSQLs old_coldefs_by_name new_coldefs_by_name ++ scan.2.1
  let idxRows ← selectRows db.index_list
  let oldIdxRaw := buildOldIdxByName idxRows
  let old_idxdefs_by_name ← fillIndexColumnsM db oldIdxRaw.1
  let old_pk_listed ← fillPKColumnsM db oldIdxRaw.2
  let old_pk := applyPKFallback old_pk_listed old_pk_cols
  let fkRows ← selectRows db.foreign_key_list
  let old_foreign_keys := buildOldFKs fkRows
  let needTableReWrite := tableNeedsRewrite new_coldefs_by_name old_coldefs_by_name
    newIdx.2 old_pk old_foreign_keys tbldef.foreign_keys
  (if needTableReWrite then
    executeSQLCommands (rewriteSQLs tbldef now scan.1)
  else
    executeSQLCommands (computeDropIdxSQLs old_idxdefs_by_name newIdx.1) >>= fun _ =>
      (if 0 < drop_add_col_sqls.length then
        execute ("alter table " ++ tbldef.name ++ " " ++ String.intercalate ", " drop_add_col_sqls)
      else pure ())) >>= fun _ =>
  executeSQLCommands
    (if needTableReWrite then []
     else computeCreateIdxSQLs tbldef.name old_idxdefs_by_name newIdx.1) >>= fun _ =>
  handleDataTransformations tbldef

/-- Step 1 of `updateSchemaForSingleTable`: query the foreign_keys
pragma and, when enforcement is active, disable it; returns the
`disabledForeignKeys` flag.  The source guard reads
`rows.length > 0 && rows[0].foreign_keys != 0`, which is the same as the
first row value defaulting to 0 being nonzero. -/
def fkDisableStep (db : DB) : EngM Bool := do
  let rows ← selectRows db.foreign_keys_rows
  if rows.head?.getD 0 ≠ 0 then
    executeSQLCommands ["pragma foreign_keys = 0"] >>= fun _ => pure true
  else pure false

/-- Steps 2 and 3: query table_info and branch into create or update. -/
def coreStep (db : DB) (tbldef : TableDefinition) (now : Nat) : EngM Unit := do
  let rows ← selectRows db.table_info
  if rows = [] then createMissingTable tbldef
  else updateExistingTable db tbldef now rows

/-- Step 4: re-enable enforcement, only when it had been disabled. -/
def fkRestoreStep (disabled : Bool) : EngM Unit :=
  if disabled then executeSQLCommands ["pragma foreign_keys = 1"] else pure ()

/-- `updateSchemaForSingleTable` from the source (after its argument
checks), against the introspection snapshot `db`, where `now` stands for
the wall clock value used to build temporary rewrite table names. -/
def updateSchemaForSingleTable (db : DB) (tbldef : TableDefinition) (now : Nat) : EngM Unit := do
  let disabled ← fkDisableStep db
  coreStep db tbldef now
  fkRestoreStep disabled

/-- Is foreign key enforcement reported active by the snapshot? -/
def fkActive (db : DB) : Bool :=
  db.foreign_keys_rows.head?.getD 0 ≠ 0

/-- The statements the disable step issues. -/
def fkTogglePre (db : DB) : List String :=
  if fkActive db then ["pragma foreign_keys = 0"] else []

/-- The statements the restore step issues on the success path. -/
def fkTogglePost (db : DB) : List String :=
  if fkActive db then ["pragma foreign_keys = 1"] else []

/-- The conditional seed statements actually issued (the even-indexed
entries of each generated list, because of the executeSQLCommands bug). -/
def seedTrace (tbldef : TableDefinition) : List String :=
  issuedOf (insertIfNotExistsSQLs tbldef)
  ++ issuedOf (updateIfExistsSQLs tbldef)
  ++ issuedOf (deleteIfExistsSQLs tbldef)

/-! ### The loosely typed argument gate

The first two lines of `updateSchemaForSingleTable` check the JavaScript
types of the declaration and of the two collaborators before any
database interaction.  `typeof null` is the string "object" in
JavaScript, so a null declaration passes the first check.
-/

/-- The JavaScript values relevant to the argument checks. -/
inductive JSValue where
  | vnull : JSValue
  | undef : JSValue
  | boolean : Bool → JSValue
  | number : Int → JSValue
  | str : String → JSValue
  | object : JSValue
  | array : JSValue
  | func : JSValue
deriving DecidableEq, Repr

/-- The JavaScript typeof operator on those values. -/
def jsTypeof : JSValue → String
  | JSValue.vnull => "object"
  | JSValue.undef => "undefined"
  | JSValue.boolean _ => "boolean"
  | JSValue.number _ => "number"
  | JSValue.str _ => "string"
  | JSValue.object => "object"
  | JSValue.array => "object"
  | JSValue.func => "function"

/-- The two error kinds of the gate, as the specification names them. -/
inductive ArgError where
  | invalidDefinition : ArgError
  | invalidCollaborator : ArgError
deriving DecidableEq, Repr

/-- Outcome of the gate: rejected with an error, or control proceeds
into the body. -/
inductive GateResult where
  | rejected : ArgError → GateResult
  | proceeds : GateResult
deriving DecidableEq, Repr

/-- The argument gate, in source order: the declaration must have
typeof object, then both collaborators must have typeof function. -/
def argGate (tbldef sel exec : JSValue) : GateResult :=
  if jsTypeof tbldef ≠ "object" then GateResult.rejected ArgError.invalidDefinition
  else if jsTypeof sel ≠ "function" ∨ jsTypeof exec ≠ "function" then
    GateResult.rejected ArgError.invalidCollaborator
  else GateResult.proceeds

/-! ### Specification-side predicates used in claim statements -/

/-- Two foreign keys agree, spelled out as the claim does: same target
table, same defaulted actions, same ordered reference pairs. -/
def FKMatchP (f1 f2 : ForeignKeyDefinition) : Prop :=
  f1.table = f2.table ∧ getFKAction f1.on_update = getFKAction f2.on_update ∧
  getFKAction f1.on_delete = getFKAction f2.on_delete ∧ f1.references = f2.references

/-- The live and declared primary keys agree: both absent, or both
present with the same origin and the same ordered column list. -/
def pkSameP (old_pk new_pk : Option IndexDefinition) : Prop :=
  (old_pk = none ∧ new_pk = none) ∨
  (∃ o n, old_pk = some o ∧ new_pk = some n ∧ o.origin = n.origin ∧ o.columns = n.columns)

/-- The statement the success path uses to restore foreign key
enforcement. -/
def reenableSQL : String := "pragma foreign_keys = 1"

/-- First character of a string, for telling the generated SQL families
apart. -/
def headCharIs (c : Char) (s : String) : Prop := s.data.head? = some c

/-- A monadic computation only ever appends statements satisfying `P` to
the trace, on both the success and the failure path. -/
def TraceExtends (P : String → Prop) {α : Type} (m : EngM α) : Prop :=
  ∀ s : EngSt,
    (∀ s1 a, m s = Except.ok (s1, a) → ∃ t, s1.trace = s.trace ++ t ∧ ∀ x ∈ t, P x)
    ∧ (∀ s1 e, m s = Except.error (s1, e) → ∃ t, s1.trace = s.trace ++ t ∧ ∀ x ∈ t, P x)

/-! ### Concrete scenario data used by individual claims -/

/-- A one-column declaration used to exercise the rewrite path. -/
def c2tbl : TableDefinition := ⟨"t", [⟨"a", "INTEGER", false, none⟩], [], [], [], [], [], []⟩

/-- A live snapshot whose single column has a different type than the
declaration, forcing needsRewrite. -/
def c2db : DB := ⟨[0], [⟨"a", "TEXT", 0, none, 0⟩], [], fun _ => [], []⟩

/-- A declaration with one column and one conditional seed entry, used
to exercise an already reconciled second run. -/
def c7tbl : TableDefinition :=
  ⟨"t", [⟨"a", "TEXT", false, none⟩], [], [], [], [⟨[("a", some "x")], []⟩], [], []⟩

/-- A live snapshot that already matches `c7tbl`, with foreign key
enforcement active. -/
def c7db : DB := ⟨[1], [⟨"a", "TEXT", 0, none, 0⟩], [], fun _ => [], []⟩

/-!
## Theorems

One theorem per claim of the specification audit, with witnesses for the
theorems that carry hypotheses, preceded by the helper lemmas they share.
-/

/-- Claim C1 (code bug): `executeSQLCommands` is supposed to issue every
statement of its list exactly once and in order, but its loop advances
the index twice per iteration: on the two-element list below the second
statement is never handed to the execute collaborator. -/
theorem claim_C1_executeSQLCommands_skips_odd :
    executeSQLCommands ["s0", "s1"] ⟨none, []⟩ = Except.ok (⟨none, ["s0"]⟩, ())
    ∧ issuedOf ["s0", "s1"] ≠ ["s0", "s1"] :=
  ⟨rfl, by decide⟩

/-- Claim C2 (code bug): on the rewrite path the generated list is in
the documented order (CREATE TABLE temp, INSERT SELECT of the common
columns, DROP, RENAME, then the CREATE INDEX statements), but the
execution loop skips the odd-indexed entries: in the run below the copy
INSERT and the RENAME are never issued. -/
theorem claim_C2_rewrite_copy_and_rename_skipped :
    rewriteSQLs c2tbl 7 ["a"] =
      ["create table t_new_7 ( a INTEGER NULL DEFAULT NULL\n)",
       "insert into t_new_7 (a) select a from t",
       "drop table t",
       "alter table t_new_7 rename to t"]
    ∧ updateExistingTable c2db c2tbl 7 c2db.table_info ⟨none, []⟩ =
        Except.ok
          (⟨none, ["create table t_new_7 ( a INTEGER NULL DEFAULT NULL\n)", "drop table t"]⟩, ())
    ∧ "insert into t_new_7 (a) select a from t" ∉
        ["create table t_new_7 ( a INTEGER NULL DEFAULT NULL\n)", "drop table t"]
    ∧ "alter table t_new_7 rename to t" ∉
        ["create table t_new_7 ( a INTEGER NULL DEFAULT NULL\n)", "drop table t"] :=
  ⟨rfl, rfl, by decide, by decide⟩

/-- Claim C3 (code bug): on the value a-quote-b-quote-c, which contains
two embedded single quotes, `quote` doubles only the first one (the
claimed output with both quotes doubled is not produced); the round trip
through `unquote` still recovers the original value on this input,
because `unquote` likewise collapses only the first doubled quote. -/
theorem claim_C3_quote_escapes_only_first_occurrence :
    quote (some ("a" ++ sq ++ "b" ++ sq ++ "c"))
        = sq ++ "a" ++ sq ++ sq ++ "b" ++ sq ++ "c" ++ sq
    ∧ quote (some ("a" ++ sq ++ "b" ++ sq ++ "c"))
        ≠ sq ++ "a" ++ sq ++ sq ++ "b" ++ sq ++ sq ++ "c" ++ sq
    ∧ unquote (some (quote (some ("a" ++ sq ++ "b" ++ sq ++ "c"))))
        = Except.ok (some ("a" ++ sq ++ "b" ++ sq ++ "c")) :=
  ⟨rfl, by decide, rfl⟩

/-- Claim C9 (corrected): the argument gate rejects every declaration
whose JavaScript typeof is not the string object with InvalidDefinition,
and rejects non-callable collaborators with InvalidCollaborator, before
any database interaction; a null declaration is NOT rejected, because
typeof null is the string object (see the counterexample). -/
theorem claim_C9_argument_gate (tbldef sel exec : JSValue) :
    (jsTypeof tbldef ≠ "object" →
      argGate tbldef sel exec = GateResult.rejected ArgError.invalidDefinition)
    ∧ (jsTypeof tbldef = "object" →
      (jsTypeof sel ≠ "function" ∨ jsTypeof exec ≠ "function") →
      argGate tbldef sel exec = GateResult.rejected ArgError.invalidCollaborator) := by
  constructor
  · intro h
    simp [argGate, h]
  · intro h1 h2
    simp [argGate, h1, h2]

/-- Witness for claim C9: a numeric declaration is rejected as an
invalid definition, and a null select collaborator is rejected as an
invalid collaborator. -/
theorem claim_C9_argument_gate_witness :
    argGate (JSValue.number 3) JSValue.func JSValue.func
        = GateResult.rejected ArgError.invalidDefinition
    ∧ argGate JSValue.object JSValue.vnull JSValue.func
        = GateResult.rejected ArgError.invalidCollaborator :=
  ⟨(claim_C9_argument_gate (JSValue.number 3) JSValue.func JSValue.func).1 (by decide),
   (claim_C9_argument_gate JSValue.object JSValue.vnull JSValue.func).2 (by decide) (by decide)⟩

/-- Counterexample for claim C9: the claim says every non-record
declaration, including null, fails with InvalidDefinition; but typeof
null is the string object in JavaScript, so a null declaration passes
the gate unrejected (the call only fails later, when the normalizer
dereferences the declaration). -/
theorem claim_C9_null_passes_gate :
    argGate JSValue.vnull JSValue.func JSValue.func = GateResult.proceeds
    ∧ jsTypeof JSValue.vnull = "object" :=
  ⟨rfl, rfl⟩

/-- A successful lookup means the key occurs among the stored keys. -/
theorem assocLookup_mem_keys {κ α : Type} [DecidableEq κ] (l : List (κ × α)) (k : κ) (v : α)
    (h : assocLookup l k = some v) : k ∈ l.map (fun p => p.1) := by
  induction l with
  | nil => simp [assocLookup] at h
  | cons p rest ih =>
    rw [assocLookup] at h
    by_cases hp : p.1 = k
    · simp [hp]
    · rw [if_neg hp] at h
      simp [ih h]

/-- Filtering for a key that occurs nowhere gives the empty list. -/
theorem filter_key_eq_nil (l : List (String × String)) (k : String)
    (h : ∀ p ∈ l, p.1 ≠ k) : l.filter (fun p => p.1 == k) = [] := by
  induction l with
  | nil => rfl
  | cons p rest ih =>
    have hp : (p.1 == k) = false := beq_eq_false_iff_ne.mpr (h p (List.mem_cons_self p rest))
    rw [List.filter_cons, if_neg (by simp [hp])]
    exact ih (fun q hq => h q (List.mem_cons_of_mem p hq))

/-- With distinct keys, filtering the quoted pair list for a stored key
returns exactly the pair built from the stored value. -/
theorem assoc_quote_filter (l : List (String × Option String)) (k : String) (v : Option String)
    (hnd : (l.map (fun p => p.1)).Nodup) (h : assocLookup l k = some v) :
    (l.map (fun p => (p.1, quote p.2))).filter (fun p => p.1 == k) = [(k, quote v)] := by
  induction l with
  | nil => simp [assocLookup] at h
  | cons p rest ih =>
    rw [assocLookup] at h
    rw [List.map_cons, List.filter_cons]
    by_cases hp : p.1 = k
    · rw [if_pos hp] at h
      have hv : p.2 = v := Option.some.inj h
      have hknotin : k ∉ rest.map (fun q => q.1) := by
        rw [← hp]
        exact (List.nodup_cons.mp (by simpa using hnd)).1
      have htail : (rest.map (fun q => (q.1, quote q.2))).filter (fun q => q.1 == k) = [] := by
        refine filter_key_eq_nil _ _ (fun q hq => ?_)
        rcases List.mem_map.mp hq with ⟨a, ha, rfl⟩
        intro hak
        exact hknotin (hak ▸ List.mem_map_of_mem (fun q => q.1) ha)
      rw [if_pos (by simp [hp]), htail, hp, hv]
    · rw [if_neg hp] at h
      rw [if_neg (by simp [hp])]
      exact ih (List.nodup_cons.mp (by simpa using hnd)).2 h

/-- Claim C10 (confirmed): an insert_if_not_exists entry with an empty
identifiers map generates no INSERT at all, even with other_values
present; and a column named in both maps appears exactly once in the
generated column list, carrying the identifiers value (the source skips
such other_values entries with continue). -/
theorem claim_C10_insert_if_not_exists (t : String) (e : SeedEntry) :
    (e.identifiers = [] → insertIfNotExistsSQL t e = none)
    ∧ (∀ k v, (e.identifiers.map (fun p => p.1)).Nodup →
        assocLookup e.identifiers k = some v → keyMem e.other_values k = true →
        ((iineColVals e).map (fun p => p.1)).count k = 1
        ∧ (iineColVals e).filter (fun p => p.1 == k) = [(k, quote v)]) := by
  constructor
  · intro h
    simp [insertIfNotExistsSQL, h]
  · intro k v hnd hid _hov
    have hkmem : keyMem e.identifiers k = true := by
      unfold keyMem
      rw [hid]
      rfl
    have hkeys : (iineColVals e).map (fun p => p.1) =
        e.identifiers.map (fun p => p.1)
        ++ (e.other_values.filter (fun p => !(keyMem e.identifiers p.1))).map (fun p => p.1) := by
      unfold iineColVals
      rw [List.map_append, List.map_map, List.map_map]
      rfl
    have hnotin : k ∉ (e.other_values.filter (fun p => !(keyMem e.identifiers p.1))).map
        (fun p => p.1) := by
      intro hk
      rcases List.mem_map.mp hk with ⟨a, ha, rfl⟩
      have := List.of_mem_filter ha
      rw [hkmem] at this
      exact absurd this (by decide)
    constructor
    · rw [hkeys, List.count_append]
      have h1 : (e.identifiers.map (fun p => p.1)).count k = 1 :=
        List.count_eq_one_of_mem hnd (assocLookup_mem_keys _ _ _ hid)
      have h2 : ((e.other_values.filter (fun p => !(keyMem e.identifiers p.1))).map
          (fun p => p.1)).count k = 0 := List.count_eq_zero.mpr hnotin
      omega
    · unfold iineColVals
      rw [List.filter_append, assoc_quote_filter e.identifiers k v hnd hid]
      have htail : ((e.other_values.filter (fun p => !(keyMem e.identifiers p.1))).map
          (fun p => (p.1, quote p.2))).filter (fun p => p.1 == k) = [] := by
        refine filter_key_eq_nil _ _ (fun q hq => ?_)
        rcases List.mem_map.mp hq with ⟨a, ha, rfl⟩
        intro hak
        exact hnotin (hak ▸ List.mem_map_of_mem (fun p => p.1) ha)
      rw [htail, List.append_nil]

/-- Witness for claim C10, at one entry with empty identifiers and one
entry where the column a occurs in both maps. -/
theorem claim_C10_insert_if_not_exists_witness :
    insertIfNotExistsSQL "t" ⟨[], [("b", some "2")]⟩ = none
    ∧ ((iineColVals ⟨[("a", some "1")], [("a", some "9"), ("b", none)]⟩).map
        (fun p => p.1)).count "a" = 1
    ∧ (iineColVals ⟨[("a", some "1")], [("a", some "9"), ("b", none)]⟩).filter
        (fun p => p.1 == "a") = [("a", quote (some "1"))] :=
  ⟨(claim_C10_insert_if_not_exists "t" ⟨[], [("b", some "2")]⟩).1 rfl,
   ((claim_C10_insert_if_not_exists "t" ⟨[("a", some "1")], [("a", some "9"), ("b", none)]⟩).2
      "a" (some "1") (by decide) rfl rfl).1,
   ((claim_C10_insert_if_not_exists "t" ⟨[("a", some "1")], [("a", some "9"), ("b", none)]⟩).2
      "a" (some "1") (by decide) rfl rfl).2⟩

/-- Pointwise string equality over a zip of equally long lists is list
equality. -/
theorem zip_all_eq_iff_strings : ∀ (l1 l2 : List String), l1.length = l2.length →
    (((l1.zip l2).all (fun p => p.1 == p.2)) = true ↔ l1 = l2)
  | [], [], _ => by simp
  | [], _ :: _, h => by simp at h
  | _ :: _, [], h => by simp at h
  | a :: l1, b :: l2, h => by
    have ih := zip_all_eq_iff_strings l1 l2 (by simpa using h)
    simp only [List.zip_cons_cons, List.all_cons, Bool.and_eq_true, beq_iff_eq, List.cons.injEq]
    exact and_congr Iff.rfl ih

/-- Pointwise reference-pair equality over a zip of equally long lists
is list equality. -/
theorem zip_all_eq_iff_fkrefs : ∀ (l1 l2 : List FKRef), l1.length = l2.length →
    (((l1.zip l2).all (fun p => p.1.fromCol == p.2.fromCol && p.1.toCol == p.2.toCol)) = true
      ↔ l1 = l2)
  | [], [], _ => by simp
  | [], _ :: _, h => by simp at h
  | _ :: _, [], h => by simp at h
  | a :: l1, b :: l2, h => by
    have ih := zip_all_eq_iff_fkrefs l1 l2 (by simpa using h)
    cases a with
    | mk af at1 =>
      cases b with
      | mk bf bt =>
        simp only [List.zip_cons_cons, List.all_cons, Bool.and_eq_true, beq_iff_eq,
          List.cons.injEq, FKRef.mk.injEq]
        exact and_congr Iff.rfl ih

/-- `doIndexesMatch` agrees with origin and ordered column equality. -/
theorem doIndexesMatch_true_iff (i1 i2 : IndexDefinition) :
    doIndexesMatch i1 i2 = true ↔ (i1.origin = i2.origin ∧ i1.columns = i2.columns) := by
  unfold doIndexesMatch
  by_cases h1 : i1.origin = i2.origin
  · rw [if_neg (by simpa using h1)]
    by_cases h2 : i1.columns.length = i2.columns.length
    · rw [if_neg (by simpa using h2), zip_all_eq_iff_strings _ _ h2]
      simp [h1]
    · rw [if_pos (by simpa using h2)]
      constructor
      · intro h
        exact absurd h (by simp)
      · rintro ⟨_, hc⟩
        exact absurd (by rw [hc]) h2
  · rw [if_pos (by simpa using h1)]
    simp [h1]

/-- `doForeignKeysMatch` agrees with the spelled-out matching relation
(same target table, same defaulted actions, same reference list). -/
theorem doForeignKeysMatch_true_iff (f1 f2 : ForeignKeyDefinition) :
    doForeignKeysMatch f1 f2 = true ↔ FKMatchP f1 f2 := by
  unfold doForeignKeysMatch FKMatchP
  by_cases h1 : f1.table = f2.table ∧ getFKAction f1.on_update = getFKAction f2.on_update ∧
      getFKAction f1.on_delete = getFKAction f2.on_delete
  · rw [if_neg (by push_neg; exact h1)]
    by_cases h2 : f1.references.length = f2.references.length
    · rw [if_neg (by simpa using h2), zip_all_eq_iff_fkrefs _ _ h2]
      tauto
    · rw [if_pos (by simpa using h2)]
      constructor
      · intro h
        exact absurd h (by simp)
      · rintro ⟨_, _, _, hc⟩
        exact absurd (by rw [hc]) h2
  · rw [if_pos (by tauto)]
    constructor
    · intro h
      exact absurd h (by simp)
    · intro h
      exact absurd ⟨h.1, h.2.1, h.2.2.1⟩ h1

/-- The common-column fold, fully characterized: it appends the common
column names, the add-column clauses, and the disjunction of the
per-column rewrite triggers to whatever accumulator it starts from. -/
theorem commonColumnScan_foldl (oldBy : List (String × ColumnDefinition))
    (new_pk : Option IndexDefinition) :
    ∀ (newBy : List (String × ColumnDefinition)) (acc : List String × List String × Bool),
    newBy.foldl (commonColumnStep oldBy new_pk) acc =
      (acc.1 ++ (commonPairs newBy oldBy).map (fun c => c.1),
       acc.2.1 ++ addColSQLs newBy oldBy,
       acc.2.2 || (commonPairs newBy oldBy).any (fun c => commonColNeedsRW new_pk c.1 c.2.1 c.2.2))
  | [], acc => by simp [commonPairs, addColSQLs]
  | p :: rest, acc => by
    rw [List.foldl_cons, commonColumnScan_foldl oldBy new_pk rest _]
    cases h : assocLookup oldBy p.1 with
    | some oldc =>
      simp [commonColumnStep, h, commonPairs, addColSQLs, keyMem, List.filterMap_cons,
        Bool.or_assoc, List.append_assoc]
    | none =>
      simp [commonColumnStep, h, commonPairs, addColSQLs, keyMem, List.filterMap_cons,
        List.append_assoc]

/-- The common-column scan from the empty accumulator. -/
theorem commonColumnScan_eq (newBy oldBy : List (String × ColumnDefinition))
    (new_pk : Option IndexDefinition) :
    commonColumnScan newBy oldBy new_pk =
      ((commonPairs newBy oldBy).map (fun c => c.1),
       addColSQLs newBy oldBy,
       (commonPairs newBy oldBy).any (fun c => commonColNeedsRW new_pk c.1 c.2.1 c.2.2)) := by
  unfold commonColumnScan
  rw [commonColumnScan_foldl]
  simp

/-- The needsRewrite flag is the disjunction of the column triggers, the
primary key mismatch, and the foreign key mismatch. -/
theorem tableNeedsRewrite_eq (newBy oldBy : List (String × ColumnDefinition))
    (new_pk old_pk : Option IndexDefinition) (old_fks new_fks : List ForeignKeyDefinition) :
    tableNeedsRewrite newBy oldBy new_pk old_pk old_fks new_fks =
      ((commonPairs newBy oldBy).any (fun c => commonColNeedsRW new_pk c.1 c.2.1 c.2.2)
        || pkMismatchB old_pk new_pk || fkMismatchB old_fks new_fks) := by
  unfold tableNeedsRewrite
  rw [commonColumnScan_eq]
  cases (commonPairs newBy oldBy).any (fun c => commonColNeedsRW new_pk c.1 c.2.1 c.2.2) with
  | false =>
    cases pkMismatchB old_pk new_pk with
    | false => simp
    | true => simp
  | true => simp

/-- Claim C4 (confirmed): the differencer selects the rewrite path
whenever a common column changes type, the primary key differs in
presence or ordered column list, or the foreign key sets differ (count
mismatch or an unmatched live key); and it stays on the incremental path
when the common columns agree completely, the primary key matches and
every live foreign key matches a declared one with equal counts —
regardless of column additions, removals and index differences, which do
not enter this flag at all. -/
theorem claim_C4_rewrite_path_selection (newBy oldBy : List (String × ColumnDefinition))
    (new_pk old_pk : Option IndexDefinition) (old_fks new_fks : List ForeignKeyDefinition) :
    ((∃ c ∈ commonPairs newBy oldBy, c.2.1.type ≠ c.2.2.type) →
      tableNeedsRewrite newBy oldBy new_pk old_pk old_fks new_fks = true)
    ∧ ((old_pk.isSome ≠ new_pk.isSome
        ∨ ∃ o n, old_pk = some o ∧ new_pk = some n ∧ o.columns ≠ n.columns) →
      tableNeedsRewrite newBy oldBy new_pk old_pk old_fks new_fks = true)
    ∧ ((old_fks.length ≠ new_fks.length
        ∨ ∃ ofk ∈ old_fks, ∀ nfk ∈ new_fks, ¬ FKMatchP ofk nfk) →
      tableNeedsRewrite newBy oldBy new_pk old_pk old_fks new_fks = true)
    ∧ ((∀ c ∈ commonPairs newBy oldBy,
          c.2.1.type = c.2.2.type ∧ c.2.1.notnull = c.2.2.notnull
            ∧ c.2.1.dflt_value = c.2.2.dflt_value) →
        pkSameP old_pk new_pk →
        (old_fks.length = new_fks.length ∧
          ∀ ofk ∈ old_fks, ∃ nfk ∈ new_fks, FKMatchP ofk nfk) →
      tableNeedsRewrite newBy oldBy new_pk old_pk old_fks new_fks = false) := by
  rw [tableNeedsRewrite_eq]
  refine ⟨?_, ?_, ?_, ?_⟩
  · rintro ⟨c, hc, hne⟩
    have hany : (commonPairs newBy oldBy).any
        (fun c => commonColNeedsRW new_pk c.1 c.2.1 c.2.2) = true :=
      List.any_eq_true.mpr ⟨c, hc, by simp [commonColNeedsRW, hne]⟩
    simp [hany]
  · intro h
    have hpk : pkMismatchB old_pk new_pk = true := by
      rcases h with h | ⟨o, n, rfl, rfl, hne⟩
      · cases old_pk <;> cases new_pk <;> simp_all [pkMismatchB]
      · unfold pkMismatchB
        have : doIndexesMatch o n = false := by
          cases hm : doIndexesMatch o n with
          | false => rfl
          | true => exact absurd ((doIndexesMatch_true_iff o n).mp hm).2 hne
        simp [this]
    simp [hpk]
  · intro h
    have hfk : fkMismatchB old_fks new_fks = true := by
      unfold fkMismatchB
      by_cases hl : old_fks.length = new_fks.length
      · rw [if_neg (by simpa using hl)]
        rcases h with h | ⟨ofk, hmem, hall⟩
        · exact absurd hl h
        · refine List.any_eq_true.mpr ⟨ofk, hmem, ?_⟩
          have : new_fks.any (fun nfk => doForeignKeysMatch ofk nfk) = false := by
            rw [List.any_eq_false]
            intro nfk hn
            cases hm : doForeignKeysMatch ofk nfk with
            | false => simp
            | true => exact absurd ((doForeignKeysMatch_true_iff ofk nfk).mp hm) (by
                intro hc
                exact hall nfk hn hc)
          simp [this]
      · rw [if_pos (by simpa using hl)]
    simp [hfk]
  · intro hcols hpk hfks
    have hany : (commonPairs newBy oldBy).any
        (fun c => commonColNeedsRW new_pk c.1 c.2.1 c.2.2) = false := by
      rw [List.any_eq_false]
      intro c hc
      have h := hcols c hc
      simp [commonColNeedsRW, h.1, h.2.1, h.2.2]
    have hpkb : pkMismatchB old_pk new_pk = false := by
      rcases hpk with ⟨rfl, rfl⟩ | ⟨o, n, rfl, rfl, ho, hc⟩
      · rfl
      · unfold pkMismatchB
        simp [(doIndexesMatch_true_iff o n).mpr ⟨ho, hc⟩]
    have hfkb : fkMismatchB old_fks new_fks = false := by
      unfold fkMismatchB
      rw [if_neg (by simpa using hfks.1)]
      rw [List.any_eq_false]
      intro ofk hmem
      rcases hfks.2 ofk hmem with ⟨nfk, hn, hm⟩
      have : new_fks.any (fun nfk => doForeignKeysMatch ofk nfk) = true :=
        List.any_eq_true.mpr ⟨nfk, hn, (doForeignKeysMatch_true_iff ofk nfk).mpr hm⟩
      simp [this]
    simp [hany, hpkb, hfkb]

/-- Witness for claim C4: a type change on the common column a forces
the rewrite flag, and an identical column with matching (absent) primary
key and foreign keys leaves it unset. -/
theorem claim_C4_rewrite_path_selection_witness :
    tableNeedsRewrite [("a", ⟨"a", "INTEGER", false, none⟩)]
        [("a", ⟨"a", "TEXT", false, none⟩)] none none [] [] = true
    ∧ tableNeedsRewrite [("a", ⟨"a", "INTEGER", false, none⟩)]
        [("a", ⟨"a", "INTEGER", false, none⟩)] none none [] [] = false :=
  ⟨(claim_C4_rewrite_path_selection [("a", ⟨"a", "INTEGER", false, none⟩)]
      [("a", ⟨"a", "TEXT", false, none⟩)] none none [] []).1
      ⟨("a", ⟨"a", "TEXT", false, none⟩, ⟨"a", "INTEGER", false, none⟩), by decide, by decide⟩,
   (claim_C4_rewrite_path_selection [("a", ⟨"a", "INTEGER", false, none⟩)]
      [("a", ⟨"a", "INTEGER", false, none⟩)] none none [] []).2.2.2
      (by decide) (Or.inl ⟨rfl, rfl⟩) ⟨rfl, fun ofk h => absurd h (List.not_mem_nil ofk)⟩⟩

/-- Claim C5 (confirmed): for a column present on both sides, a notnull
mismatch is forgiven exactly when the column belongs to the declared
primary key, a default mismatch is forgiven exactly when the column is
the single column of a single-column INTEGER-typed declared primary key,
and every other type/notnull/default mismatch raises the per-column
trigger, which sets needsRewrite for the whole table. -/
theorem claim_C5_per_column_exceptions (new_pk : Option IndexDefinition) (k : String)
    (oc nc : ColumnDefinition) (newBy oldBy : List (String × ColumnDefinition))
    (old_pk : Option IndexDefinition) (old_fks new_fks : List ForeignKeyDefinition) :
    (isPKCol new_pk k = true → oc.type = nc.type →
      (isPKAutoIntCol new_pk k nc = true ∨ oc.dflt_value = nc.dflt_value) →
      commonColNeedsRW new_pk k oc nc = false)
    ∧ (isPKAutoIntCol new_pk k nc = true → oc.type = nc.type →
      commonColNeedsRW new_pk k oc nc = false)
    ∧ (oc.type ≠ nc.type → commonColNeedsRW new_pk k oc nc = true)
    ∧ (isPKCol new_pk k = false → oc.notnull ≠ nc.notnull →
      commonColNeedsRW new_pk k oc nc = true)
    ∧ (isPKAutoIntCol new_pk k nc = false → oc.dflt_value ≠ nc.dflt_value →
      commonColNeedsRW new_pk k oc nc = true)
    ∧ ((k, oc, nc) ∈ commonPairs newBy oldBy → commonColNeedsRW new_pk k oc nc = true →
      tableNeedsRewrite newBy oldBy new_pk old_pk old_fks new_fks = true) := by
  refine ⟨?_, ?_, ?_, ?_, ?_, ?_⟩
  · intro hpk htype hd
    rcases hd with h | h <;> simp [commonColNeedsRW, htype, hpk, h]
  · intro hauto htype
    have hpk : isPKCol new_pk k = true := by
      unfold isPKAutoIntCol at hauto
      exact (Bool.and_eq_true .. |>.mp ((Bool.and_eq_true .. |>.mp hauto).1)).1
    simp [commonColNeedsRW, htype, hpk, hauto]
  · intro htype
    simp [commonColNeedsRW, htype]
  · intro hpk hnn
    simp [commonColNeedsRW, hpk, hnn]
  · intro hauto hd
    simp [commonColNeedsRW, hauto, hd]
  · intro hmem htrig
    rw [tableNeedsRewrite_eq]
    have hany : (commonPairs newBy oldBy).any
        (fun c => commonColNeedsRW new_pk c.1 c.2.1 c.2.2) = true :=
      List.any_eq_true.mpr ⟨(k, oc, nc), hmem, htrig⟩
    simp [hany]

/-- Witness for claim C5: a notnull flip on the single INTEGER primary
key column id raises no trigger, while a type change on an ordinary
column does. -/
theorem claim_C5_per_column_exceptions_witness :
    commonColNeedsRW (some ⟨"", "pk", ["id"]⟩) "id"
        ⟨"id", "INTEGER", true, none⟩ ⟨"id", "INTEGER", false, none⟩ = false
    ∧ commonColNeedsRW none "x" ⟨"x", "TEXT", false, none⟩ ⟨"x", "INTEGER", false, none⟩ = true :=
  ⟨(claim_C5_per_column_exceptions (some ⟨"", "pk", ["id"]⟩) "id"
      ⟨"id", "INTEGER", true, none⟩ ⟨"id", "INTEGER", false, none⟩ [] [] none [] []).1
      (by decide) rfl (Or.inr rfl),
   (claim_C5_per_column_exceptions none "x"
      ⟨"x", "TEXT", false, none⟩ ⟨"x", "INTEGER", false, none⟩ [] [] none [] []).2.2.1
      (by decide)⟩

/-- Stable insertion produces a permutation of pushing in front. -/
theorem insertByOrdinal_perm (acc : List (String × Nat)) (x : String × Nat) :
    (insertByOrdinal acc x).Perm (x :: acc) := by
  induction acc with
  | nil => exact List.Perm.refl _
  | cons y ys ih =>
    unfold insertByOrdinal
    by_cases h : y.2 ≤ x.2
    · rw [if_pos h]
      exact (ih.cons y).trans (List.Perm.swap x y ys)
    · rw [if_neg h]

/-- The sorting fold permutes the accumulator followed by the input. -/
theorem foldl_insertByOrdinal_perm :
    ∀ (l acc : List (String × Nat)), (l.foldl insertByOrdinal acc).Perm (acc ++ l)
  | [], acc => by simp
  | x :: xs, acc => by
    rw [List.foldl_cons]
    refine (foldl_insertByOrdinal_perm xs (insertByOrdinal acc x)).trans ?_
    refine ((insertByOrdinal_perm acc x).append_right xs).trans ?_
    exact List.perm_middle.symm

/-- Stable insertion preserves sortedness by ordinal. -/
theorem insertByOrdinal_pairwise (acc : List (String × Nat)) (x : String × Nat)
    (h : acc.Pairwise (fun a b => a.2 ≤ b.2)) :
    (insertByOrdinal acc x).Pairwise (fun a b => a.2 ≤ b.2) := by
  induction acc with
  | nil => simp [insertByOrdinal]
  | cons y ys ih =>
    rw [List.pairwise_cons] at h
    unfold insertByOrdinal
    by_cases hle : y.2 ≤ x.2
    · rw [if_pos hle, List.pairwise_cons]
      refine ⟨fun z hz => ?_, ih h.2⟩
      rcases List.mem_cons.mp ((insertByOrdinal_perm ys x).mem_iff.mp hz) with rfl | hmem
      · exact hle
      · exact h.1 z hmem
    · rw [if_neg hle, List.pairwise_cons]
      refine ⟨fun z hz => ?_, List.pairwise_cons.mpr ⟨h.1, h.2⟩⟩
      rcases List.mem_cons.mp hz with rfl | hmem
      · exact Nat.le_of_lt (Nat.lt_of_not_le hle)
      · exact Nat.le_trans (Nat.le_of_lt (Nat.lt_of_not_le hle)) (h.1 z hmem)

/-- The sorting fold yields a list sorted by ordinal. -/
theorem foldl_insertByOrdinal_pairwise :
    ∀ (l acc : List (String × Nat)), acc.Pairwise (fun a b => a.2 ≤ b.2) →
      (l.foldl insertByOrdinal acc).Pairwise (fun a b => a.2 ≤ b.2)
  | [], _, h => h
  | x :: xs, acc, h => by
    rw [List.foldl_cons]
    exact foldl_insertByOrdinal_pairwise xs _ (insertByOrdinal_pairwise acc x h)

/-- Without pk-origin rows, the index fold leaves the pk slot alone. -/
theorem foldl_oldIdxStep_pk_none :
    ∀ (rows : List IndexListRow)
      (acc : List (String × IndexDefinition) × Option IndexDefinition),
      (∀ r ∈ rows, r.origin ≠ "pk") → (rows.foldl oldIdxStep acc).2 = acc.2
  | [], _, _ => rfl
  | r :: rest, acc, h => by
    rw [List.foldl_cons,
      foldl_oldIdxStep_pk_none rest _ (fun q hq => h q (List.mem_cons_of_mem r hq))]
    have hr := h r (List.mem_cons_self r rest)
    unfold oldIdxStep
    by_cases hc : r.origin = "c" ∨ r.origin = "u"
    · rw [if_pos hc]
    · rw [if_neg hc, if_neg hr]

/-- The index fold never clears an already discovered pk slot. -/
theorem foldl_oldIdxStep_pk_isSome_preserved :
    ∀ (rows : List IndexListRow)
      (acc : List (String × IndexDefinition) × Option IndexDefinition),
      acc.2.isSome = true → ((rows.foldl oldIdxStep acc).2).isSome = true
  | [], _, h => h
  | r :: rest, acc, h => by
    rw [List.foldl_cons]
    refine foldl_oldIdxStep_pk_isSome_preserved rest _ ?_
    unfold oldIdxStep
    by_cases hc : r.origin = "c" ∨ r.origin = "u"
    · rw [if_pos hc]
      exact h
    · by_cases hp : r.origin = "pk"
      · rw [if_neg hc, if_pos hp]
        rfl
      · rw [if_neg hc, if_neg hp]
        exact h

/-- A pk-origin row guarantees the index fold fills the pk slot. -/
theorem foldl_oldIdxStep_pk_isSome :
    ∀ (rows : List IndexListRow)
      (acc : List (String × IndexDefinition) × Option IndexDefinition),
      (∃ r ∈ rows, r.origin = "pk") → ((rows.foldl oldIdxStep acc).2).isSome = true
  | [], _, h => absurd h (by simp)
  | r :: rest, acc, h => by
    rw [List.foldl_cons]
    by_cases hp : r.origin = "pk"
    · refine foldl_oldIdxStep_pk_isSome_preserved rest _ ?_
      unfold oldIdxStep
      rw [if_neg (by simp [hp]), if_pos hp]
      rfl
    · rcases h with ⟨q, hq, hqp⟩
      rcases List.mem_cons.mp hq with rfl | hmem
      · exact absurd hqp hp
      · exact foldl_oldIdxStep_pk_isSome rest _ ⟨q, hmem, hqp⟩

/-- Claim C6 (confirmed): when the index listing has no pk-origin entry
but some column reports a nonzero pk ordinal, the live primary key is
reconstructed as exactly the nonzero-pk columns sorted by their ordinal;
when a pk-origin entry is listed, the fallback is not applied and the
live primary key comes from the listing, independent of the table_info
ordinals. -/
theorem claim_C6_pk_fallback (info : String → List String) (tinfo : List TableInfoRow)
    (ilist : List IndexListRow) :
    ((∀ r ∈ ilist, r.origin ≠ "pk") → (∃ r ∈ tinfo, 0 < r.pk) →
      ∃ ps : List (String × Nat),
        livePKOf info tinfo ilist = some ⟨"", "pk", ps.map (fun p => p.1)⟩
        ∧ ps.Perm (pkOrdinalPairs tinfo)
        ∧ ps.Pairwise (fun a b => a.2 ≤ b.2))
    ∧ ((∃ r ∈ ilist, r.origin = "pk") →
      ∃ pk : IndexDefinition, (buildOldIdxByName ilist).2 = some pk
        ∧ ∀ tinfo2 : List TableInfoRow,
            livePKOf info tinfo2 ilist = some ⟨pk.name, pk.origin, info pk.name⟩) := by
  constructor
  · intro hno hpos
    refine ⟨(pkOrdinalPairs tinfo).foldl insertByOrdinal [], ?_, ?_, ?_⟩
    · have h2 : (buildOldIdxByName ilist).2 = none := by
        unfold buildOldIdxByName
        exact foldl_oldIdxStep_pk_none ilist ([], none) hno
      have hne : oldPKColsFromTableInfo tinfo ≠ [] := by
        unfold oldPKColsFromTableInfo
        intro hc
        rw [List.map_eq_nil_iff] at hc
        have hperm := foldl_insertByOrdinal_perm (pkOrdinalPairs tinfo) []
        rw [hc] at hperm
        have hpairs : pkOrdinalPairs tinfo = [] := by
          have := hperm.symm.eq_nil
          simpa using this
        rcases hpos with ⟨r, hr, hrpk⟩
        have hmem : (r.name, r.pk - 1) ∈ pkOrdinalPairs tinfo := by
          unfold pkOrdinalPairs
          exact List.mem_filterMap.mpr ⟨r, hr, by rw [if_pos hrpk]⟩
        rw [hpairs] at hmem
        exact List.not_mem_nil _ hmem
      unfold livePKOf
      rw [h2]
      unfold fillPK applyPKFallback
      simp only [Option.map_none']
      rw [if_pos hne]
      rfl
    · exact (foldl_insertByOrdinal_perm (pkOrdinalPairs tinfo) []).trans (by simp)
    · exact foldl_insertByOrdinal_pairwise (pkOrdinalPairs tinfo) [] (by simp)
  · intro hsome
    have hs : ((buildOldIdxByName ilist).2).isSome = true := by
      unfold buildOldIdxByName
      exact foldl_oldIdxStep_pk_isSome ilist ([], none) hsome
    rcases Option.isSome_iff_exists.mp hs with ⟨pk, hpk⟩
    refine ⟨pk, hpk, fun tinfo2 => ?_⟩
    unfold livePKOf
    rw [hpk]
    unfold fillPK applyPKFallback
    simp

/-- Witness for claim C6: with an empty index listing and two columns at
pk ordinals 2 and 1, the reconstructed primary key is b at ordinal 0
after a at ordinal... (a first, b second); with a listed pk entry the
listing wins. -/
theorem claim_C6_pk_fallback_witness :
    (∃ ps : List (String × Nat),
      livePKOf (fun _ => []) [⟨"b", "INTEGER", 0, none, 2⟩, ⟨"a", "INTEGER", 0, none, 1⟩] []
          = some ⟨"", "pk", ps.map (fun p => p.1)⟩
      ∧ ps.Perm (pkOrdinalPairs [⟨"b", "INTEGER", 0, none, 2⟩, ⟨"a", "INTEGER", 0, none, 1⟩])
      ∧ ps.Pairwise (fun a b => a.2 ≤ b.2))
    ∧ ∃ pk : IndexDefinition,
        (buildOldIdxByName [⟨"pkidx", "pk", none⟩]).2 = some pk
        ∧ ∀ tinfo2 : List TableInfoRow,
            livePKOf (fun _ => ["a"]) tinfo2 [⟨"pkidx", "pk", none⟩]
              = some ⟨pk.name, pk.origin, (fun _ => ["a"]) pk.name⟩ :=
  ⟨(claim_C6_pk_fallback (fun _ => [])
      [⟨"b", "INTEGER", 0, none, 2⟩, ⟨"a", "INTEGER", 0, none, 1⟩] []).1
      (by simp) ⟨⟨"b", "INTEGER", 0, none, 2⟩, by simp, by decide⟩,
   (claim_C6_pk_fallback (fun _ => ["a"]) [] [⟨"pkidx", "pk", none⟩]).2
      ⟨⟨"pkidx", "pk", none⟩, by simp, rfl⟩⟩

/-! ### Running the engine -/

/-- Evaluate a bind whose first component is known to succeed. -/
theorem run_bind_ok {α β : Type} (m : EngM α) (f : α → EngM β) (s s1 : EngSt) (a : α)
    (h : m s = Except.ok (s1, a)) : (m >>= f) s = f a s1 := by
  show (match m s with
        | Except.error e => Except.error e
        | Except.ok (s1, a) => f a s1) = f a s1
  rw [h]

/-- Evaluate a bind, exposing the underlying case split. -/
theorem run_bind_app {α β : Type} (m : EngM α) (f : α → EngM β) (s : EngSt) :
    (m >>= f) s = match m s with
      | Except.error e => Except.error e
      | Except.ok (s1, a) => f a s1 := rfl

/-- Running pure changes nothing. -/
theorem run_pure {α : Type} (a : α) (s : EngSt) : (pure a : EngM α) s = Except.ok (s, a) := rfl

/-- With unlimited fuel a select returns its rows and keeps the state. -/
theorem selectRows_run {α : Type} (rows : List α) (t : List String) :
    selectRows rows ⟨none, t⟩ = Except.ok (⟨none, t⟩, rows) := rfl

/-- With unlimited fuel an execute appends its statement. -/
theorem execute_run (sql : String) (t : List String) :
    execute sql ⟨none, t⟩ = Except.ok (⟨none, t ++ [sql]⟩, ()) := rfl

/-- With unlimited fuel the command loop appends exactly the
even-indexed commands. -/
theorem executeSQLCommands_run :
    ∀ (l t : List String),
      executeSQLCommands l ⟨none, t⟩ = Except.ok (⟨none, t ++ issuedOf l⟩, ())
  | [], t => by simp [executeSQLCommands, issuedOf, run_pure]
  | [c], t => by simp [executeSQLCommands, issuedOf, execute_run]
  | c :: d :: rest, t => by
    show (execute c >>= fun _ => executeSQLCommands rest) ⟨none, t⟩ = _
    rw [run_bind_ok _ _ _ _ _ (execute_run c t), executeSQLCommands_run rest (t ++ [c])]
    simp [issuedOf]

/-- With unlimited fuel the per-index column queries fill the column
lists and leave the trace alone. -/
theorem fillIndexColumnsM_run (db : DB) :
    ∀ (l : List (String × IndexDefinition)) (t : List String),
      fillIndexColumnsM db l ⟨none, t⟩ =
        Except.ok (⟨none, t⟩, fillIdxColumns db.index_info l)
  | [], t => by simp [fillIndexColumnsM, fillIdxColumns, run_pure]
  | p :: rest, t => by
    show (selectRows (db.index_info p.2.name) >>= fun rows =>
        fillIndexColumnsM db rest >>= fun rest1 =>
          pure ((p.1, ⟨p.2.name, p.2.origin, rows⟩) :: rest1)) ⟨none, t⟩ = _
    rw [run_bind_ok _ _ _ _ _ (selectRows_run (db.index_info p.2.name) t),
      run_bind_ok _ _ _ _ _ (fillIndexColumnsM_run db rest t)]
    simp [run_pure, fillIdxColumns]

/-- With unlimited fuel the primary key column query fills the columns
and leaves the trace alone. -/
theorem fillPKColumnsM_run (db : DB) :
    ∀ (opk : Option IndexDefinition) (t : List String),
      fillPKColumnsM db opk ⟨none, t⟩ = Except.ok (⟨none, t⟩, fillPK db.index_info opk)
  | none, t => by simp [fillPKColumnsM, fillPK, run_pure]
  | some i, t => by
    show (selectRows (db.index_info i.name) >>= fun rows =>
        pure (some (⟨i.name, i.origin, rows⟩ : IndexDefinition))) ⟨none, t⟩ = _
    rw [run_bind_ok _ _ _ _ _ (selectRows_run (db.index_info i.name) t)]
    simp [run_pure, fillPK]

/-- With unlimited fuel the seed phase appends exactly the issued seed
statements. -/
theorem handleDataTransformations_run (tbldef : TableDefinition) (t : List String) :
    handleDataTransformations tbldef ⟨none, t⟩ =
      Except.ok (⟨none, t ++ seedTrace tbldef⟩, ()) := by
  unfold handleDataTransformations
  rw [run_bind_ok _ _ _ _ _ (executeSQLCommands_run (insertIfNotExistsSQLs tbldef) t),
    run_bind_ok _ _ _ _ _ (executeSQLCommands_run (updateIfExistsSQLs tbldef) _),
    executeSQLCommands_run]
  simp [seedTrace]

/-- With unlimited fuel the disable step appends its toggle and returns
whether enforcement was active. -/
theorem fkDisableStep_run (db : DB) (t : List String) :
    fkDisableStep db ⟨none, t⟩ = Except.ok (⟨none, t ++ fkTogglePre db⟩, fkActive db) := by
  unfold fkDisableStep
  rw [run_bind_ok _ _ _ _ _ (selectRows_run db.foreign_keys_rows t)]
  by_cases hv : db.foreign_keys_rows.head?.getD 0 ≠ 0
  · have hact : fkActive db = true := by simp [fkActive, hv]
    rw [if_pos hv]
    rw [run_bind_ok _ _ _ _ _ (executeSQLCommands_run ["pragma foreign_keys = 0"] t)]
    simp [run_pure, fkTogglePre, hact, issuedOf]
  · have hact : fkActive db = false := by simp [fkActive, hv]
    rw [if_neg hv]
    simp [run_pure, fkTogglePre, hact]

/-- No drop-column clauses when every live column is still declared. -/
theorem dropColSQLs_eq_nil (oldBy newBy : List (String × ColumnDefinition))
    (h : ∀ p ∈ oldBy, keyMem newBy p.1 = true) : dropColSQLs oldBy newBy = [] := by
  unfold dropColSQLs
  rw [List.filterMap_eq_nil_iff]
  intro p hp
  simp [h p hp]

/-- No add-column clauses when every declared column is already live. -/
theorem addColSQLs_eq_nil (newBy oldBy : List (String × ColumnDefinition))
    (h : ∀ p ∈ newBy, keyMem oldBy p.1 = true) : addColSQLs newBy oldBy = [] := by
  unfold addColSQLs
  rw [List.filterMap_eq_nil_iff]
  intro p hp
  simp [h p hp]

/-- No index drops when the two index families agree. -/
theorem computeDropIdxSQLs_eq_nil (oldIdx newIdx : List (String × IndexDefinition))
    (ha : ∀ p ∈ oldIdx, keyMem newIdx p.1 = true)
    (hb : ∀ q ∈ newIdx, ∃ oi, assocLookup oldIdx q.1 = some oi ∧ doIndexesMatch oi q.2 = true) :
    computeDropIdxSQLs oldIdx newIdx = [] := by
  unfold computeDropIdxSQLs
  rw [List.append_eq_nil]
  constructor
  · rw [List.filterMap_eq_nil_iff]
    intro p hp
    simp [ha p hp]
  · rw [List.filterMap_eq_nil_iff]
    intro q hq
    rcases hb q hq with ⟨oi, hl, hm⟩
    rw [hl]
    simp [hm]

/-- No index creations when the two index families agree. -/
theorem computeCreateIdxSQLs_eq_nil (tableName : String)
    (oldIdx newIdx : List (String × IndexDefinition))
    (hb : ∀ q ∈ newIdx, ∃ oi, assocLookup oldIdx q.1 = some oi ∧ doIndexesMatch oi q.2 = true) :
    computeCreateIdxSQLs tableName oldIdx newIdx = [] := by
  unfold computeCreateIdxSQLs
  rw [List.filterMap_eq_nil_iff]
  intro q hq
  rcases hb q hq with ⟨oi, hl, hm⟩
  rw [hl]
  simp [hm]

/-- When the live state already matches the declaration, an update run
issues exactly the conditional seed statements and nothing else. -/
theorem updateExistingTable_noop (db : DB) (tbldef : TableDefinition) (now : Nat)
    (oldBy : List (String × ColumnDefinition)) (t : List String)
    (h1 : buildOldColdefsByName db.table_info = Except.ok oldBy)
    (h3 : ∀ p ∈ oldBy, keyMem (newColdefsByName tbldef.columns) p.1 = true)
    (h4 : ∀ p ∈ newColdefsByName tbldef.columns, keyMem oldBy p.1 = true)
    (h5 : ∀ c ∈ commonPairs (newColdefsByName tbldef.columns) oldBy,
        c.2.1.type = c.2.2.type ∧ c.2.1.notnull = c.2.2.notnull
          ∧ c.2.1.dflt_value = c.2.2.dflt_value)
    (h6 : pkMismatchB (livePKOf db.index_info db.table_info db.index_list)
        (newIdxByName tbldef.indexes).2 = false)
    (h7 : fkMismatchB (buildOldFKs db.foreign_key_list) tbldef.foreign_keys = false)
    (h8a : ∀ p ∈ fillIdxColumns db.index_info (buildOldIdxByName db.index_list).1,
        keyMem (newIdxByName tbldef.indexes).1 p.1 = true)
    (h8b : ∀ q ∈ (newIdxByName tbldef.indexes).1,
        ∃ oi, assocLookup (fillIdxColumns db.index_info (buildOldIdxByName db.index_list).1) q.1
            = some oi ∧ doIndexesMatch oi q.2 = true) :
    updateExistingTable db tbldef now db.table_info ⟨none, t⟩ =
      Except.ok (⟨none, t ++ seedTrace tbldef⟩, ()) := by
  have h6u := h6
  unfold livePKOf at h6u
  have hany : (commonPairs (newColdefsByName tbldef.columns) oldBy).any
      (fun c => commonColNeedsRW (newIdxByName tbldef.indexes).2 c.1 c.2.1 c.2.2) = false := by
    rw [List.any_eq_false]
    intro c hc
    have h := h5 c hc
    simp [commonColNeedsRW, h.1, h.2.1, h.2.2]
  have hrw : tableNeedsRewrite (newColdefsByName tbldef.columns) oldBy
      (newIdxByName tbldef.indexes).2
      (applyPKFallback (fillPK db.index_info (buildOldIdxByName db.index_list).2)
        (oldPKColsFromTableInfo db.table_info))
      (buildOldFKs db.foreign_key_list) tbldef.foreign_keys = false := by
    rw [tableNeedsRewrite_eq, hany, h6u, h7]
    rfl
  have hdrops := dropColSQLs_eq_nil oldBy (newColdefsByName tbldef.columns) h3
  have hadds := addColSQLs_eq_nil (newColdefsByName tbldef.columns) oldBy h4
  have hdropidx := computeDropIdxSQLs_eq_nil
    (fillIdxColumns db.index_info (buildOldIdxByName db.index_list).1)
    (newIdxByName tbldef.indexes).1 h8a h8b
  have hcreateidx := computeCreateIdxSQLs_eq_nil tbldef.name
    (fillIdxColumns db.index_info (buildOldIdxByName db.index_list).1)
    (newIdxByName tbldef.indexes).1 h8b
  unfold updateExistingTable
  rw [h1]
  simp only [liftExcept, run_bind_app, run_pure, selectRows_run, fillIndexColumnsM_run,
    fillPKColumnsM_run, commonColumnScan_eq, hadds, hdrops, hrw, hdropidx, hcreateidx,
    executeSQLCommands_run, handleDataTransformations_run, issuedOf, List.append_nil,
    List.nil_append, List.length_nil, Bool.false_eq_true, if_false]
  simp [run_bind_app, run_pure, executeSQLCommands_run, handleDataTransformations_run, issuedOf]

/-- Claim C7 (confirmed): a reconciliation run against a live state that
already reflects the declaration (as a first successful run leaves it)
issues no DDL or DML at all: its trace is exactly the foreign-key pragma
toggles around the conditional seed statements
(insert_if_not_exists / update_if_exists / delete_if_exists). -/
theorem claim_C7_second_run_idempotent (db : DB) (tbldef : TableDefinition) (now : Nat)
    (oldBy : List (String × ColumnDefinition))
    (h2 : db.table_info ≠ [])
    (h1 : buildOldColdefsByName db.table_info = Except.ok oldBy)
    (h3 : ∀ p ∈ oldBy, keyMem (newColdefsByName tbldef.columns) p.1 = true)
    (h4 : ∀ p ∈ newColdefsByName tbldef.columns, keyMem oldBy p.1 = true)
    (h5 : ∀ c ∈ commonPairs (newColdefsByName tbldef.columns) oldBy,
        c.2.1.type = c.2.2.type ∧ c.2.1.notnull = c.2.2.notnull
          ∧ c.2.1.dflt_value = c.2.2.dflt_value)
    (h6 : pkMismatchB (livePKOf db.index_info db.table_info db.index_list)
        (newIdxByName tbldef.indexes).2 = false)
    (h7 : fkMismatchB (buildOldFKs db.foreign_key_list) tbldef.foreign_keys = false)
    (h8a : ∀ p ∈ fillIdxColumns db.index_info (buildOldIdxByName db.index_list).1,
        keyMem (newIdxByName tbldef.indexes).1 p.1 = true)
    (h8b : ∀ q ∈ (newIdxByName tbldef.indexes).1,
        ∃ oi, assocLookup (fillIdxColumns db.index_info (buildOldIdxByName db.index_list).1) q.1
            = some oi ∧ doIndexesMatch oi q.2 = true) :
    updateSchemaForSingleTable db tbldef now ⟨none, []⟩ =
      Except.ok (⟨none, fkTogglePre db ++ seedTrace tbldef ++ fkTogglePost db⟩, ()) := by
  have hdis : fkDisableStep db ⟨none, []⟩ =
      Except.ok (⟨none, fkTogglePre db⟩, fkActive db) := by
    simpa using fkDisableStep_run db []
  have hcore : coreStep db tbldef now ⟨none, fkTogglePre db⟩ =
      Except.ok (⟨none, fkTogglePre db ++ seedTrace tbldef⟩, ()) := by
    unfold coreStep
    rw [run_bind_ok _ _ _ _ _ (selectRows_run db.table_info (fkTogglePre db))]
    rw [if_neg h2]
    exact updateExistingTable_noop db tbldef now oldBy (fkTogglePre db)
      h1 h3 h4 h5 h6 h7 h8a h8b
  unfold updateSchemaForSingleTable
  rw [run_bind_ok _ _ _ _ _ hdis, run_bind_ok _ _ _ _ _ hcore]
  unfold fkRestoreStep
  cases hact : fkActive db with
  | false => simp [run_pure, fkTogglePost, hact]
  | true =>
    rw [if_pos rfl]
    rw [executeSQLCommands_run]
    simp [fkTogglePost, hact, issuedOf]

/-- Witness for claim C7: on the already reconciled snapshot `c7db` the
whole run issues only the two pragma toggles around the single seed
statement. -/
theorem claim_C7_second_run_idempotent_witness :
    updateSchemaForSingleTable c7db c7tbl 0 ⟨none, []⟩ =
      Except.ok (⟨none, fkTogglePre c7db ++ seedTrace c7tbl ++ fkTogglePost c7db⟩, ()) :=
  claim_C7_second_run_idempotent c7db c7tbl 0 [("a", ⟨"a", "TEXT", false, none⟩)]
    (by decide) rfl (by decide) (by decide) (by decide) rfl rfl (by decide) (by decide)

/-! ### Shapes of the generated statements

Every DDL/DML statement the engine generates starts with a fixed lower
case keyword, so none of them can collide with the pragma that restores
foreign key enforcement.
-/

/-- A nonempty prefix decides the first character of an append. -/
theorem headCharIs_append (c : Char) (s t : String) (h : headCharIs c s) :
    headCharIs c (s ++ t) := by
  unfold headCharIs at h ⊢
  rw [String.data_append]
  cases hs : s.data with
  | nil => rw [hs] at h; exact absurd h (by simp)
  | cons a l =>
    rw [hs] at h
    simpa using h

/-- Strings with different first characters differ. -/
theorem ne_of_headChar {c1 c2 : Char} {s1 s2 : String} (h1 : headCharIs c1 s1)
    (h2 : headCharIs c2 s2) (hne : c1 ≠ c2) : s1 ≠ s2 := by
  intro he
  rw [he] at h1
  unfold headCharIs at h1 h2
  rw [h1] at h2
  exact hne (Option.some.inj h2)

/-- A statement that starts with anything but the letter p is not the
restore pragma. -/
theorem ne_reenable_of_headChar (c : Char) {s : String} (h : headCharIs c s)
    (hc : c ≠ 'p') : s ≠ reenableSQL :=
  ne_of_headChar h (rfl : headCharIs 'p' reenableSQL) hc

/-- The column clause fold keeps the leading keyword. -/
theorem createTableColStep_foldl_headChar (spk : Option String) :
    ∀ (cols : List ColumnDefinition) (acc : String × String × Option IndexDefinition),
      headCharIs 'c' acc.1 → headCharIs 'c' ((cols.foldl (createTableColStep spk) acc).1)
  | [], _, h => h
  | cd :: rest, acc, h => by
    rw [List.foldl_cons]
    refine createTableColStep_foldl_headChar spk rest _ ?_
    unfold createTableColStep
    by_cases hc : spk = some cd.name ∧ cd.type = "INTEGER"
    · rw [if_pos hc]
      repeat refine headCharIs_append _ _ _ ?_
      exact h
    · rw [if_neg hc]
      repeat refine headCharIs_append _ _ _ ?_
      exact h

/-- The foreign key clause fold keeps the leading keyword. -/
theorem createTableFKStep_foldl_headChar :
    ∀ (fks : List ForeignKeyDefinition) (acc : String × String),
      headCharIs 'c' acc.1 → headCharIs 'c' ((fks.foldl createTableFKStep acc).1)
  | [], _, h => h
  | fk :: rest, acc, h => by
    rw [List.foldl_cons]
    refine createTableFKStep_foldl_headChar rest _ ?_
    unfold createTableFKStep
    repeat refine headCharIs_append _ _ _ ?_
    exact h

/-- CREATE TABLE statements start with the letter c. -/
theorem getCreateTableSQL_headChar (tbldef : TableDefinition) (tn : String) :
    headCharIs 'c' (getCreateTableSQL tbldef tn) := by
  unfold getCreateTableSQL
  refine headCharIs_append _ _ _ ?_
  have hinit : headCharIs 'c' ((("create table " ++ tn ++ " (" : String), ("" : String),
      (createTablePKScan tbldef.indexes).1).1) :=
    headCharIs_append _ _ _ (headCharIs_append _ _ _ rfl)
  have h1 := createTableColStep_foldl_headChar (createTablePKScan tbldef.indexes).2
    tbldef.columns _ hinit
  refine createTableFKStep_foldl_headChar tbldef.foreign_keys _ ?_
  cases hpk : (tbldef.columns.foldl (createTableColStep (createTablePKScan tbldef.indexes).2)
      ("create table " ++ tn ++ " (", "", (createTablePKScan tbldef.indexes).1)).2.2 with
  | none => simpa [hpk] using h1
  | some pk =>
    simp only [hpk]
    repeat refine headCharIs_append _ _ _ ?_
    exact h1

/-- A nonempty CREATE INDEX rendering starts with the letter c. -/
theorem indexDefinitionToSQL_headChar (idx : IndexDefinition) (tn : String)
    (h : indexDefinitionToSQL idx tn ≠ "") : headCharIs 'c' (indexDefinitionToSQL idx tn) := by
  unfold indexDefinitionToSQL at h ⊢
  by_cases hc : idx.origin = "c" ∨ idx.origin = "u"
  · rw [if_pos hc]
    repeat refine headCharIs_append _ _ _ ?_
    rfl
  · rw [if_neg hc] at h
    exact absurd rfl h

/-- Every member of the CREATE INDEX list starts with the letter c. -/
theorem getCreateIndexSQLs_headChar (tbldef : TableDefinition) (tn : String) (x : String)
    (h : x ∈ getCreateIndexSQLs tbldef tn) : headCharIs 'c' x := by
  unfold getCreateIndexSQLs at h
  rcases List.mem_filterMap.mp h with ⟨idx, _, hf⟩
  by_cases hc : idx.origin = "c" ∨ idx.origin = "u"
  · rw [if_pos hc] at hf
    by_cases hne : indexDefinitionToSQL idx tn ≠ ""
    · rw [if_pos hne] at hf
      rw [← Option.some.inj hf]
      exact indexDefinitionToSQL_headChar idx tn hne
    · rw [if_neg hne] at hf
      exact absurd hf (by simp)
  · rw [if_neg hc] at hf
    exact absurd hf (by simp)

/-- No rewrite-path statement is the restore pragma. -/
theorem rewriteSQLs_not_reenable (tbldef : TableDefinition) (now : Nat) (common : List String) :
    ∀ x ∈ rewriteSQLs tbldef now common, x ≠ reenableSQL := by
  intro x hx
  unfold rewriteSQLs at hx
  rcases List.mem_append.mp hx with h | h
  · simp only [List.mem_cons, List.not_mem_nil, or_false] at h
    rcases h with rfl | rfl | rfl | rfl
    · exact ne_reenable_of_headChar 'c' (getCreateTableSQL_headChar tbldef _) (by decide)
    · refine ne_reenable_of_headChar 'i' ?_ (by decide)
      repeat refine headCharIs_append _ _ _ ?_
      rfl
    · refine ne_reenable_of_headChar 'd' ?_ (by decide)
      repeat refine headCharIs_append _ _ _ ?_
      rfl
    · refine ne_reenable_of_headChar 'a' ?_ (by decide)
      repeat refine headCharIs_append _ _ _ ?_
      rfl
  · exact ne_reenable_of_headChar 'c' (getCreateIndexSQLs_headChar tbldef _ x h) (by decide)

/-- No incremental index drop is the restore pragma. -/
theorem computeDropIdxSQLs_not_reenable (oldIdx newIdx : List (String × IndexDefinition)) :
    ∀ x ∈ computeDropIdxSQLs oldIdx newIdx, x ≠ reenableSQL := by
  intro x hx
  unfold computeDropIdxSQLs at hx
  have hdx : ∀ k : String, ("drop index " ++ k) ≠ reenableSQL := fun k =>
    ne_reenable_of_headChar 'd' (headCharIs_append _ _ _ rfl) (by decide)
  rcases List.mem_append.mp hx with h | h
  · rcases List.mem_filterMap.mp h with ⟨p, _, hf⟩
    split at hf
    · exact absurd hf (by simp)
    · rw [← Option.some.inj hf]
      exact hdx p.1
  · rcases List.mem_filterMap.mp h with ⟨p, _, hf⟩
    split at hf
    · split at hf
      · exact absurd hf (by simp)
      · rw [← Option.some.inj hf]
        exact hdx p.1
    · exact absurd hf (by simp)

/-- No incremental index creation is the restore pragma. -/
theorem computeCreateIdxSQLs_not_reenable (tn : String)
    (oldIdx newIdx : List (String × IndexDefinition)) :
    ∀ x ∈ computeCreateIdxSQLs tn oldIdx newIdx, x ≠ reenableSQL := by
  intro x hx
  unfold computeCreateIdxSQLs at hx
  rcases List.mem_filterMap.mp hx with ⟨p, _, hf⟩
  split at hf
  · split at hf
    · exact absurd hf (by simp)
    · simp only [] at hf
      by_cases hne : indexDefinitionToSQL p.2 tn ≠ ""
      · rw [if_pos hne] at hf
        rw [← Option.some.inj hf]
        exact ne_reenable_of_headChar 'c' (indexDefinitionToSQL_headChar p.2 tn hne) (by decide)
      · rw [if_neg hne] at hf
        exact absurd hf (by simp)
  · simp only [] at hf
    by_cases hne : indexDefinitionToSQL p.2 tn ≠ ""
    · rw [if_pos hne] at hf
      rw [← Option.some.inj hf]
      exact ne_reenable_of_headChar 'c' (indexDefinitionToSQL_headChar p.2 tn hne) (by decide)
    · rw [if_neg hne] at hf
      exact absurd hf (by simp)

/-- No insert_if_not_exists statement is the restore pragma. -/
theorem insertIfNotExistsSQLs_not_reenable (tbldef : TableDefinition) :
    ∀ x ∈ insertIfNotExistsSQLs tbldef, x ≠ reenableSQL := by
  intro x hx
  rcases List.mem_filterMap.mp hx with ⟨e, _, hf⟩
  unfold insertIfNotExistsSQL at hf
  by_cases he : e.identifiers = []
  · rw [if_pos he] at hf
    exact absurd hf (by simp)
  · rw [if_neg he] at hf
    rw [← Option.some.inj hf]
    refine ne_reenable_of_headChar 'i' ?_ (by decide)
    repeat refine headCharIs_append _ _ _ ?_
    rfl

/-- No update_if_exists statement is the restore pragma. -/
theorem updateIfExistsSQLs_not_reenable (tbldef : TableDefinition) :
    ∀ x ∈ updateIfExistsSQLs tbldef, x ≠ reenableSQL := by
  intro x hx
  rcases List.mem_filterMap.mp hx with ⟨e, _, hf⟩
  unfold updateIfExistsSQL at hf
  by_cases ho : e.other_values = []
  · rw [if_pos ho] at hf
    exact absurd hf (by simp)
  · rw [if_neg ho] at hf
    by_cases he : e.identifiers = []
    · rw [if_pos he] at hf
      exact absurd hf (by simp)
    · rw [if_neg he] at hf
      rw [← Option.some.inj hf]
      refine ne_reenable_of_headChar 'u' ?_ (by decide)
      repeat refine headCharIs_append _ _ _ ?_
      rfl

/-- No delete_if_exists statement is the restore pragma. -/
theorem deleteIfExistsSQLs_not_reenable (tbldef : TableDefinition) :
    ∀ x ∈ deleteIfExistsSQLs tbldef, x ≠ reenableSQL := by
  intro x hx
  rcases List.mem_filterMap.mp hx with ⟨m, _, hf⟩
  unfold deleteIfExistsSQL at hf
  by_cases hm : m = []
  · rw [if_pos hm] at hf
    exact absurd hf (by simp)
  · rw [if_neg hm] at hf
    rw [← Option.some.inj hf]
    refine ne_reenable_of_headChar 'd' ?_ (by decide)
    repeat refine headCharIs_append _ _ _ ?_
    rfl

/-- No insert_on_create statement is the restore pragma. -/
theorem insertOnCreateSQLs_not_reenable (tbldef : TableDefinition) :
    ∀ x ∈ insertOnCreateSQLs tbldef, x ≠ reenableSQL := by
  intro x hx
  rcases List.mem_map.mp hx with ⟨ioc, _, hf⟩
  rw [← hf]
  refine ne_reenable_of_headChar 'i' ?_ (by decide)
  repeat refine headCharIs_append _ _ _ ?_
  rfl

/-! ### Trace extension lemmas -/

/-- Projections out of a success equation. -/
theorem ok_state_eq {α : Type} {s s1 : EngSt} {a b : α}
    (h : (Except.ok (s, a) : Except (EngSt × EngErr) (EngSt × α)) = Except.ok (s1, b)) :
    s1 = s ∧ b = a := by
  injection h with h2
  exact ⟨(congrArg Prod.fst h2).symm, (congrArg Prod.snd h2).symm⟩

/-- Pure computations extend the trace by nothing. -/
theorem TE_pure {α : Type} (P : String → Prop) (a : α) : TraceExtends P (pure a) := by
  intro s
  constructor
  · intro s1 b h
    rw [run_pure] at h
    rcases ok_state_eq h with ⟨rfl, -⟩
    exact ⟨[], by simp, by simp⟩
  · intro s1 e h
    rw [run_pure] at h
    exact absurd h (by simp)

/-- A select extends the trace by nothing. -/
theorem TE_selectRows {α : Type} (P : String → Prop) (rows : List α) :
    TraceExtends P (selectRows rows) := by
  intro s
  constructor
  · intro s1 a h
    unfold selectRows at h
    match hf : s.fuel, h with
    | none, h =>
      rcases ok_state_eq h with ⟨rfl, -⟩
      exact ⟨[], by simp, by simp⟩
    | some 0, h => exact absurd h (by simp)
    | some (n + 1), h =>
      rcases ok_state_eq h with ⟨rfl, -⟩
      exact ⟨[], by simp, by simp⟩
  · intro s1 e h
    unfold selectRows at h
    match hf : s.fuel, h with
    | none, h => exact absurd h (by simp)
    | some 0, h =>
      injection h with h2
      cases h2
      exact ⟨[], by simp, by simp⟩
    | some (n + 1), h => exact absurd h (by simp)

/-- An execute extends the trace by its single statement. -/
theorem TE_execute (P : String → Prop) (sql : String) (hp : P sql) :
    TraceExtends P (execute sql) := by
  intro s
  constructor
  · intro s1 a h
    unfold execute at h
    match hf : s.fuel, h with
    | none, h =>
      rcases ok_state_eq h with ⟨rfl, -⟩
      exact ⟨[sql], by simp, by simpa using hp⟩
    | some 0, h => exact absurd h (by simp)
    | some (n + 1), h =>
      rcases ok_state_eq h with ⟨rfl, -⟩
      exact ⟨[sql], by simp, by simpa using hp⟩
  · intro s1 e h
    unfold execute at h
    match hf : s.fuel, h with
    | none, h => exact absurd h (by simp)
    | some 0, h =>
      injection h with h2
      cases h2
      exact ⟨[], by simp, by simp⟩
    | some (n + 1), h => exact absurd h (by simp)

/-- Surfaced throws extend the trace by nothing. -/
theorem TE_liftExcept {α : Type} (P : String → Prop) (r : Except String α) :
    TraceExtends P (liftExcept r) := by
  cases r with
  | ok a => exact TE_pure P a
  | error e =>
    intro s
    constructor
    · intro s1 a h
      exact absurd h (by simp [liftExcept])
    · intro s1 e2 h
      unfold liftExcept at h
      injection h with h2
      cases h2
      exact ⟨[], by simp, by simp⟩

/-- Binding composes trace extensions. -/
theorem TE_bind {α β : Type} (P : String → Prop) (m : EngM α) (f : α → EngM β)
    (hm : TraceExtends P m) (hf : ∀ a, TraceExtends P (f a)) :
    TraceExtends P (m >>= f) := by
  intro s
  constructor
  · intro s1 b h
    rw [run_bind_app] at h
    match hms : m s, h with
    | Except.error e, h => exact absurd h (by simp)
    | Except.ok (s2, a), h =>
      rcases (hm s).1 s2 a hms with ⟨t1, ht1, hp1⟩
      rcases ((hf a) s2).1 s1 b h with ⟨t2, ht2, hp2⟩
      refine ⟨t1 ++ t2, by rw [ht2, ht1, List.append_assoc], fun x hx => ?_⟩
      rcases List.mem_append.mp hx with hx | hx
      · exact hp1 x hx
      · exact hp2 x hx
  · intro s1 e h
    rw [run_bind_app] at h
    match hms : m s, h with
    | Except.error e2, h =>
      injection h with h2
      subst h2
      exact (hm s).2 s1 e hms
    | Except.ok (s2, a), h =>
      rcases (hm s).1 s2 a hms with ⟨t1, ht1, hp1⟩
      rcases ((hf a) s2).2 s1 e h with ⟨t2, ht2, hp2⟩
      refine ⟨t1 ++ t2, by rw [ht2, ht1, List.append_assoc], fun x hx => ?_⟩
      rcases List.mem_append.mp hx with hx | hx
      · exact hp1 x hx
      · exact hp2 x hx

/-- Branching preserves trace extension. -/
theorem TE_ite {α : Type} (P : String → Prop) (c : Prop) [Decidable c] (m1 m2 : EngM α)
    (h1 : TraceExtends P m1) (h2 : TraceExtends P m2) :
    TraceExtends P (if c then m1 else m2) := by
  by_cases hc : c
  · rw [if_pos hc]
    exact h1
  · rw [if_neg hc]
    exact h2

/-- The command loop extends the trace only by commands of its list. -/
theorem TE_executeSQLCommands (P : String → Prop) :
    ∀ l : List String, (∀ x ∈ l, P x) → TraceExtends P (executeSQLCommands l)
  | [], _ => TE_pure P ()
  | [c], h => TE_execute P c (h c (by simp))
  | c :: d :: rest, h => by
    show TraceExtends P (execute c >>= fun _ => executeSQLCommands rest)
    exact TE_bind P _ _ (TE_execute P c (h c (by simp)))
      (fun _ => TE_executeSQLCommands P rest (fun x hx => h x (by simp [hx])))

/-- The per-index column queries extend the trace by nothing. -/
theorem TE_fillIndexColumnsM (P : String → Prop) (db : DB) :
    ∀ l : List (String × IndexDefinition), TraceExtends P (fillIndexColumnsM db l)
  | [] => TE_pure P []
  | p :: rest => by
    show TraceExtends P (selectRows (db.index_info p.2.name) >>= fun rows =>
      fillIndexColumnsM db rest >>= fun rest1 =>
        pure ((p.1, ⟨p.2.name, p.2.origin, rows⟩) :: rest1))
    exact TE_bind P _ _ (TE_selectRows P _)
      (fun rows => TE_bind P _ _ (TE_fillIndexColumnsM P db rest) (fun rest1 => TE_pure P _))

/-- The primary key column query extends the trace by nothing. -/
theorem TE_fillPKColumnsM (P : String → Prop) (db : DB) :
    ∀ opk : Option IndexDefinition, TraceExtends P (fillPKColumnsM db opk)
  | none => TE_pure P none
  | some i => by
    show TraceExtends P (selectRows (db.index_info i.name) >>= fun rows =>
      pure (some (⟨i.name, i.origin, rows⟩ : IndexDefinition)))
    exact TE_bind P _ _ (TE_selectRows P _) (fun rows => TE_pure P _)

/-- The seed phase never issues the restore pragma. -/
theorem TE_handleDataTransformations (tbldef : TableDefinition) :
    TraceExtends (fun x => x ≠ reenableSQL) (handleDataTransformations tbldef) := by
  unfold handleDataTransformations
  refine TE_bind _ _ _
    (TE_executeSQLCommands _ _ (insertIfNotExistsSQLs_not_reenable tbldef)) (fun _ => ?_)
  refine TE_bind _ _ _
    (TE_executeSQLCommands _ _ (updateIfExistsSQLs_not_reenable tbldef)) (fun _ => ?_)
  exact TE_executeSQLCommands _ _ (deleteIfExistsSQLs_not_reenable tbldef)

/-- The create path never issues the restore pragma. -/
theorem TE_createMissingTable (tbldef : TableDefinition) :
    TraceExtends (fun x => x ≠ reenableSQL) (createMissingTable tbldef) := by
  unfold createMissingTable
  refine TE_bind _ _ _ (TE_executeSQLCommands _ _ ?_) (fun _ => ?_)
  · intro x hx
    simp only [List.mem_singleton] at hx
    rw [hx]
    exact ne_reenable_of_headChar 'c' (getCreateTableSQL_headChar tbldef tbldef.name) (by decide)
  refine TE_bind _ _ _ (TE_executeSQLCommands _ _ (fun x hx =>
    ne_reenable_of_headChar 'c' (getCreateIndexSQLs_headChar tbldef tbldef.name x hx)
      (by decide))) (fun _ => ?_)
  refine TE_bind _ _ _
    (TE_executeSQLCommands _ _ (insertOnCreateSQLs_not_reenable tbldef)) (fun _ => ?_)
  exact TE_handleDataTransformations tbldef

/-- The update path never issues the restore pragma. -/
theorem TE_updateExistingTable (db : DB) (tbldef : TableDefinition) (now : Nat)
    (old_coldefs : List TableInfoRow) :
    TraceExtends (fun x => x ≠ reenableSQL) (updateExistingTable db tbldef now old_coldefs) := by
  unfold updateExistingTable
  refine TE_bind _ _ _ (TE_liftExcept _ _) (fun oldBy => ?_)
  refine TE_bind _ _ _ (TE_selectRows _ _) (fun idxRows => ?_)
  refine TE_bind _ _ _ (TE_fillIndexColumnsM _ db _) (fun oldIdx => ?_)
  refine TE_bind _ _ _ (TE_fillPKColumnsM _ db _) (fun oldPkListed => ?_)
  refine TE_bind _ _ _ (TE_selectRows _ _) (fun fkRows => ?_)
  refine TE_bind _ _ _ ?_ (fun _ => ?_)
  · refine TE_ite _ _ _ _ ?_ ?_
    · exact TE_executeSQLCommands _ _ (rewriteSQLs_not_reenable tbldef now _)
    · refine TE_bind _ _ _
        (TE_executeSQLCommands _ _ (computeDropIdxSQLs_not_reenable _ _)) (fun _ => ?_)
      refine TE_ite _ _ _ _ ?_ (TE_pure _ ())
      refine TE_execute _ _ ?_
      refine ne_reenable_of_headChar 'a' ?_ (by decide)
      repeat refine headCharIs_append _ _ _ ?_
      rfl
  refine TE_bind _ _ _ (TE_executeSQLCommands _ _ ?_)
    (fun _ => TE_handleDataTransformations tbldef)
  intro x hx
  split at hx
  · exact absurd hx (List.not_mem_nil x)
  · exact computeCreateIdxSQLs_not_reenable tbldef.name _ _ x hx

/-- The create-or-update core never issues the restore pragma. -/
theorem TE_coreStep (db : DB) (tbldef : TableDefinition) (now : Nat) :
    TraceExtends (fun x => x ≠ reenableSQL) (coreStep db tbldef now) := by
  unfold coreStep
  refine TE_bind _ _ _ (TE_selectRows _ _) (fun rows => ?_)
  exact TE_ite _ _ _ _ (TE_createMissingTable tbldef) (TE_updateExistingTable db tbldef now rows)

/-- The disable step never issues the restore pragma. -/
theorem TE_fkDisableStep (db : DB) :
    TraceExtends (fun x => x ≠ reenableSQL) (fkDisableStep db) := by
  unfold fkDisableStep
  refine TE_bind _ _ _ (TE_selectRows _ _) (fun rows => ?_)
  refine TE_ite _ _ _ _ ?_ (TE_pure _ false)
  refine TE_bind _ _ _ (TE_executeSQLCommands _ _ ?_) (fun _ => TE_pure _ true)
  intro x hx
  simp only [List.mem_singleton] at hx
  rw [hx]
  decide

/-- A successful select returns exactly the rows of the snapshot. -/
theorem selectRows_ok_val {α : Type} (rows : List α) (s s2 : EngSt) (v : List α)
    (h : selectRows rows s = Except.ok (s2, v)) : v = rows := by
  unfold selectRows at h
  match hf : s.fuel, h with
  | none, h => exact (ok_state_eq h).2
  | some 0, h => exact absurd h (by simp)
  | some (n + 1), h => exact (ok_state_eq h).2

/-- Decompose a bind equation into the two ways it can arise. -/
theorem run_bind_cases {α β : Type} (m : EngM α) (f : α → EngM β) (s : EngSt)
    (r : Except (EngSt × EngErr) (EngSt × β)) (h : (m >>= f) s = r) :
    (∃ e, m s = Except.error e ∧ r = Except.error e)
    ∨ (∃ s1 a, m s = Except.ok (s1, a) ∧ f a s1 = r) := by
  rw [run_bind_app] at h
  match hms : m s, h with
  | Except.error e, h => exact Or.inl ⟨e, rfl, h.symm⟩
  | Except.ok (s1, a), h => exact Or.inr ⟨s1, a, rfl, h⟩

/-- When enforcement is active a successful disable step returns true. -/
theorem fkDisableStep_ok_val (db : DB) (hfk : fkActive db = true) (s s1 : EngSt) (d : Bool)
    (h : fkDisableStep db s = Except.ok (s1, d)) : d = true := by
  unfold fkDisableStep at h
  rcases run_bind_cases _ _ _ _ h with ⟨e, _, hr⟩ | ⟨s2, rows, hms, h2⟩
  · exact absurd hr (by simp)
  · have hv := selectRows_ok_val db.foreign_keys_rows s s2 rows hms
    subst hv
    have h3 : ((if db.foreign_keys_rows.head?.getD 0 ≠ 0 then
        executeSQLCommands ["pragma foreign_keys = 0"] >>= fun _ => pure true
      else pure false) : EngM Bool) s2 = Except.ok (s1, d) := h2
    have hv0 : db.foreign_keys_rows.head?.getD 0 ≠ 0 := by
      have hfk2 : decide (db.foreign_keys_rows.head?.getD 0 ≠ 0) = true := hfk
      exact of_decide_eq_true hfk2
    rw [if_pos hv0] at h3
    rcases run_bind_cases _ _ _ _ h3 with ⟨e, _, hr⟩ | ⟨s3, u, _, h4⟩
    · exact absurd hr (by simp)
    · have h5 : (Except.ok (s3, true) : Except (EngSt × EngErr) (EngSt × Bool))
          = Except.ok (s1, d) := h4
      exact (ok_state_eq h5).2

/-- Claim C8 (confirmed): when foreign key enforcement was found active,
every run that ends in success issues the restore pragma as its very
last statement; and on every run aborted by a failure (collaborator
failure or a thrown parse error), the restore pragma is never among the
issued statements — restoration happens only on the success path. -/
theorem claim_C8_fk_restore_success_only (db : DB) (tbldef : TableDefinition) (now : Nat)
    (fuel : Option Nat) (hfk : fkActive db = true) :
    (∀ s1 : EngSt, updateSchemaForSingleTable db tbldef now ⟨fuel, []⟩ = Except.ok (s1, ()) →
        s1.trace.getLast? = some reenableSQL)
    ∧ (∀ (s1 : EngSt) (e : EngErr),
        updateSchemaForSingleTable db tbldef now ⟨fuel, []⟩ = Except.error (s1, e) →
        reenableSQL ∉ s1.trace) := by
  constructor
  · intro s1 h
    unfold updateSchemaForSingleTable at h
    rcases run_bind_cases _ _ _ _ h with ⟨e0, _, hr⟩ | ⟨s2, d, hd, h2⟩
    · exact absurd hr (by simp)
    · have hdt : d = true := fkDisableStep_ok_val db hfk _ _ _ hd
      subst hdt
      have h2b : (coreStep db tbldef now >>= fun _ => fkRestoreStep true) s2
          = Except.ok (s1, ()) := h2
      rcases run_bind_cases _ _ _ _ h2b with ⟨e0, _, hr⟩ | ⟨s3, u, hc, h3⟩
      · exact absurd hr (by simp)
      · have h4 : execute "pragma foreign_keys = 1" s3 = Except.ok (s1, ()) := h3
        unfold execute at h4
        match hf : s3.fuel, h4 with
        | none, h4 =>
          rcases ok_state_eq h4 with ⟨rfl, -⟩
          simp [reenableSQL]
        | some 0, h4 => exact absurd h4 (by simp)
        | some (n + 1), h4 =>
          rcases ok_state_eq h4 with ⟨rfl, -⟩
          simp [reenableSQL]
  · intro s1 e h
    unfold updateSchemaForSingleTable at h
    rcases run_bind_cases _ _ _ _ h with ⟨e0, hd, hr⟩ | ⟨s2, d, hd, h2⟩
    · injection hr with h3
      rw [← h3] at hd
      rcases (TE_fkDisableStep db ⟨fuel, []⟩).2 s1 e hd with ⟨t, ht, hp⟩
      intro hmem
      rw [ht] at hmem
      simp only [List.nil_append] at hmem
      exact (hp _ hmem) rfl
    · rcases (TE_fkDisableStep db ⟨fuel, []⟩).1 s2 d hd with ⟨t1, ht1, hp1⟩
      have hdt : d = true := fkDisableStep_ok_val db hfk _ _ _ hd
      subst hdt
      have h2b : (coreStep db tbldef now >>= fun _ => fkRestoreStep true) s2
          = Except.error (s1, e) := h2
      rcases run_bind_cases _ _ _ _ h2b with ⟨e0, hc, hr⟩ | ⟨s3, u, hc, h3⟩
      · injection hr with h3
        rw [← h3] at hc
        rcases (TE_coreStep db tbldef now s2).2 s1 e hc with ⟨t2, ht2, hp2⟩
        intro hmem
        rw [ht2, ht1] at hmem
        simp only [List.nil_append, List.mem_append] at hmem
        rcases hmem with hm | hm
        · exact (hp1 _ hm) rfl
        · exact (hp2 _ hm) rfl
      · rcases (TE_coreStep db tbldef now s2).1 s3 u hc with ⟨t2, ht2, hp2⟩
        have h4 : execute "pragma foreign_keys = 1" s3 = Except.error (s1, e) := h3
        unfold execute at h4
        match hf : s3.fuel, h4 with
        | none, h4 => exact absurd h4 (by simp)
        | some 0, h4 =>
          injection h4 with h5
          cases h5
          intro hmem
          rw [ht2, ht1] at hmem
          simp only [List.nil_append, List.mem_append] at hmem
          rcases hmem with hm | hm
          · exact (hp1 _ hm) rfl
          · exact (hp2 _ hm) rfl
        | some (n + 1), h4 => exact absurd h4 (by simp)

/-- Witness for claim C8: on the snapshot with enforcement active, the
successful run of claim C7 ends with the restore pragma. -/
theorem claim_C8_fk_restore_success_only_witness :
    (⟨none, fkTogglePre c7db ++ seedTrace c7tbl ++ fkTogglePost c7db⟩ : EngSt).trace.getLast?
        = some reenableSQL :=
  (claim_C8_fk_restore_success_only c7db c7tbl 0 none (by decide)).1
    ⟨none, fkTogglePre c7db ++ seedTrace c7tbl ++ fkTogglePost c7db⟩ (by rfl)

end S3SM
